import Mathlib

/-!
Verification development for the CloudCompare CCLib PointCloud component
(src/CC/src/PointCloud.cpp).  The point-cloud state and each of its
operations are embedded as executable Lean definitions; collaborator
classes that are declared outside the available sources (ScalarField,
BoundingBox, CCVector3, SquareMatrix, the numeric tolerance) are modelled
from the specification, as indicated in their doc comments.
-/

/-- Modelled from the spec: a finite-precision floating-point scalar
(PointCoordinateType), represented as an exact rational value together
with a flag marking the not-a-number state.  The flag captures the one
floating-point behaviour the source relies on, namely that a value
compares not-equal to itself exactly when it is not-a-number. -/
structure Flt where
  val : ℚ
  nanFlag : Bool
deriving DecidableEq, Repr

/-- Embeds the C expression x != x on a floating-point value: true
exactly for a not-a-number value. -/
def Flt.selfNe (a : Flt) : Bool := a.nanFlag

def Flt.ofQ (q : ℚ) : Flt := ⟨q, false⟩

def Flt.add (a b : Flt) : Flt := ⟨a.val + b.val, a.nanFlag || b.nanFlag⟩

def Flt.mul (a b : Flt) : Flt := ⟨a.val * b.val, a.nanFlag || b.nanFlag⟩

def Flt.sub (a b : Flt) : Flt := ⟨a.val - b.val, a.nanFlag || b.nanFlag⟩

def Flt.fabs (a : Flt) : Flt := ⟨|a.val|, a.nanFlag⟩

/-- Strict comparison of a floating-point value against a plain rational
bound; a comparison involving a not-a-number value is false. -/
def Flt.gtQ (a : Flt) (q : ℚ) : Bool := !a.nanFlag && decide (q < a.val)

/-- Modelled from the spec: componentwise running-minimum accumulator step. -/
def Flt.fmin (a b : Flt) : Flt := ⟨min a.val b.val, a.nanFlag || b.nanFlag⟩

/-- Modelled from the spec: componentwise running-maximum accumulator step. -/
def Flt.fmax (a b : Flt) : Flt := ⟨max a.val b.val, a.nanFlag || b.nanFlag⟩

/-- Modelled from the spec: a 3D coordinate triple (CCVector3 of CCGeom.h,
which is not under the available sources). -/
structure CCVector3 where
  x : Flt
  y : Flt
  z : Flt
deriving DecidableEq, Repr

def CCVector3.zero : CCVector3 := ⟨Flt.ofQ 0, Flt.ofQ 0, Flt.ofQ 0⟩

instance : Inhabited CCVector3 := ⟨CCVector3.zero⟩

/-- Componentwise scaling, embedding the compound assignment P *= s. -/
def CCVector3.scl (s : Flt) (P : CCVector3) : CCVector3 :=
  ⟨P.x.mul s, P.y.mul s, P.z.mul s⟩

/-- Componentwise addition, embedding the compound assignment P += T. -/
def CCVector3.addV (u v : CCVector3) : CCVector3 :=
  ⟨u.x.add v.x, u.y.add v.y, u.z.add v.z⟩

/-- Squared Euclidean norm; the source compares norm() against the zero
tolerance, which is equivalent to comparing the squared norm against the
squared tolerance since both sides are nonnegative. -/
def CCVector3.normSq (v : CCVector3) : Flt :=
  ((v.x.mul v.x).add (v.y.mul v.y)).add (v.z.mul v.z)

def CCVector3.minV (u v : CCVector3) : CCVector3 :=
  ⟨u.x.fmin v.x, u.y.fmin v.y, u.z.fmin v.z⟩

def CCVector3.maxV (u v : CCVector3) : CCVector3 :=
  ⟨u.x.fmax v.x, u.y.fmax v.y, u.z.fmax v.z⟩

/-- Modelled from the spec: the numeric tolerance ZERO_TOLERANCE of
CCConst.h (not under the available sources), 1e-8. -/
def ZERO_TOLERANCE : ℚ := 1 / 100000000

/-- Modelled from the spec: the cached axis-aligned bounding box, either
valid (reflecting the current point sequence) or invalid (stale). -/
structure BoundingBox where
  m_valid : Bool
  m_bbMin : CCVector3
  m_bbMax : CCVector3
deriving DecidableEq, Repr

def BoundingBox.cleared : BoundingBox := ⟨false, CCVector3.zero, CCVector3.zero⟩

/-- Modelled from the spec: folding one point into the running min/max
accumulator; the first point folded into a cleared box initialises both
corners. -/
def BoundingBox.add (b : BoundingBox) (P : CCVector3) : BoundingBox :=
  if b.m_valid then ⟨true, b.m_bbMin.minV P, b.m_bbMax.maxV P⟩ else ⟨true, P, P⟩

def BoundingBox.setValidity (b : BoundingBox) (v : Bool) : BoundingBox :=
  { b with m_valid := v }

/-- Modelled from the spec: the box obtained by folding every point of the
sequence into a running min/max accumulator and then marking it valid. -/
def computeBox (l : List CCVector3) : BoundingBox :=
  { l.foldl BoundingBox.add BoundingBox.cleared with m_valid := true }

/-- Modelled from the spec: a named, ordered sequence of scalar values
with running min/max statistics (ScalarField, not under the available
sources). -/
structure ScalarField where
  name : String
  values : List ℚ
  minVal : ℚ
  maxVal : ℚ
deriving DecidableEq, Repr

instance : Inhabited ScalarField := ⟨⟨"", [], 0, 0⟩⟩

/-- Resizing a list to an exact length: a longer list is truncated, a
shorter one is padded at the end with the given fill element. -/
def listResize {α : Type} (l : List α) (n : Nat) (pad : α) : List α :=
  l.take n ++ List.replicate (n - l.length) pad

/-- Exchange of the elements at two positions of a list; out-of-range
positions are read with the default element. -/
def listSwap {α : Type} [Inhabited α] (l : List α) (i j : Nat) : List α :=
  (l.set i (l.getD j default)).set j (l.getD i default)

/-- Modelled from the spec: recomputation of the running min/max
statistics from the current contents (an empty field gets 0/0). -/
def ScalarField.computeMinAndMax (sf : ScalarField) : ScalarField :=
  match sf.values with
  | [] => { sf with minVal := 0, maxVal := 0 }
  | v :: vs => { sf with minVal := vs.foldl min v, maxVal := vs.foldl max v }

/-- Modelled from the spec: the non-failing resize primitive (shrinking
truncates, growing pads with zeros). -/
def ScalarField.resize (sf : ScalarField) (n : Nat) : ScalarField :=
  { sf with values := listResize sf.values n 0 }

/-- Modelled from the spec: the safe growth primitive, which either fully
succeeds or leaves the prior size of the field unchanged.  Shrinking performs
no allocation and cannot fail; growing fails exactly when the injected
allocation outcome allocOk is false. -/
def ScalarField.resizeSafe (sf : ScalarField) (allocOk : Bool) (n : Nat) :
    Option ScalarField :=
  if n ≤ sf.values.length then some (sf.resize n)
  else if allocOk then some (sf.resize n) else none

/-- Modelled from the spec: exchange of the two scalar slots at the given
point indices; indices outside the stored value range touch nothing. -/
def ScalarField.swap (sf : ScalarField) (i j : Nat) : ScalarField :=
  if i < sf.values.length ∧ j < sf.values.length then
    { sf with values := listSwap sf.values i j }
  else sf

def ScalarField.setValue (sf : ScalarField) (i : Nat) (v : ℚ) : ScalarField :=
  { sf with values := sf.values.set i v }

def ScalarField.setName (sf : ScalarField) (n : String) : ScalarField :=
  { sf with name := n }

/-- The rollback applied by PointCloud::resize to an already-grown field
when a later field fails: plain resize back to the old count followed by
recomputation of the min/max statistics. -/
def ScalarField.rollbackTo (sf : ScalarField) (oldCount : Nat) : ScalarField :=
  (sf.resize oldCount).computeMinAndMax

/-- The point-cloud state: the members of CCLib::PointCloud, with the
backing capacity of the point vector made explicit. -/
structure PointCloud where
  m_points : List CCVector3
  m_pointsCapacity : Nat
  m_bbox : BoundingBox
  m_scalarFields : List ScalarField
  m_currentInScalarFieldIndex : Int
  m_currentOutScalarFieldIndex : Int
  m_currentPointIndex : Nat
deriving DecidableEq, Repr

/-- The default-constructed cloud. -/
def PointCloud.empty : PointCloud := ⟨[], 0, BoundingBox.cleared, [], -1, -1, 0⟩

def PointCloud.size (pc : PointCloud) : Nat := pc.m_points.length

def PointCloud.invalidateBoundingBox (pc : PointCloud) : PointCloud :=
  { pc with m_bbox := pc.m_bbox.setValidity false }

def PointCloud.placeIteratorAtBeginning (pc : PointCloud) : PointCloud :=
  { pc with m_currentPointIndex := 0 }

def PointCloud.getNextPoint (pc : PointCloud) : PointCloud × Option CCVector3 :=
  if h : pc.m_currentPointIndex < pc.m_points.length then
    ({ pc with m_currentPointIndex := pc.m_currentPointIndex + 1 },
      some (pc.m_points.get ⟨pc.m_currentPointIndex, h⟩))
  else (pc, none)

/-- PointCloud::addPoint: appends the point, substituting the canonical
origin when any coordinate fails the floating-point self-inequality test,
and always invalidates the bounding-box cache. -/
def PointCloud.addPoint (pc : PointCloud) (P : CCVector3) : PointCloud :=
  let stored := if P.x.selfNe || P.y.selfNe || P.z.selfNe then CCVector3.zero else P
  { pc with
      m_points := pc.m_points ++ [stored]
      m_pointsCapacity := max pc.m_pointsCapacity (pc.m_points.length + 1)
      m_bbox := pc.m_bbox.setValidity false }

/-- PointCloud::getBoundingBox: recompute the box from the points when the
cache is invalid, then return the corners (the cloud is returned as well
since the recomputation updates the cache). -/
def PointCloud.getBoundingBox (pc : PointCloud) : PointCloud × CCVector3 × CCVector3 :=
  if pc.m_bbox.m_valid then (pc, pc.m_bbox.m_bbMin, pc.m_bbox.m_bbMax)
  else
    let b := computeBox pc.m_points
    ({ pc with m_bbox := b }, b.m_bbMin, b.m_bbMax)

/-- Modelled from the spec: the rotation part of
PointProjectionTools::Transformation (SquareMatrix, not under the
available sources), with its validity flag. -/
structure SquareMatrix where
  m_valid : Bool
  r11 : ℚ
  r12 : ℚ
  r13 : ℚ
  r21 : ℚ
  r22 : ℚ
  r23 : ℚ
  r31 : ℚ
  r32 : ℚ
  r33 : ℚ
deriving DecidableEq, Repr

def SquareMatrix.isValid (R : SquareMatrix) : Bool := R.m_valid

def qMulF (q : ℚ) (a : Flt) : Flt := ⟨q * a.val, a.nanFlag⟩

/-- Matrix-vector product R * P. -/
def SquareMatrix.mulV (R : SquareMatrix) (P : CCVector3) : CCVector3 :=
  ⟨((qMulF R.r11 P.x).add (qMulF R.r12 P.y)).add (qMulF R.r13 P.z),
   ((qMulF R.r21 P.x).add (qMulF R.r22 P.y)).add (qMulF R.r23 P.z),
   ((qMulF R.r31 P.x).add (qMulF R.r32 P.y)).add (qMulF R.r33 P.z)⟩

/-- Modelled from the spec: PointProjectionTools::Transformation, a
uniform scale s, a rotation R and a translation T. -/
structure Transformation where
  R : SquareMatrix
  T : CCVector3
  s : Flt
deriving DecidableEq, Repr

/-- The guard of the scale phase: fabs(s - 1) > ZERO_TOLERANCE. -/
def scaleCond (t : Transformation) : Bool :=
  ((t.s.sub (Flt.ofQ 1)).fabs).gtQ ZERO_TOLERANCE

/-- The guard of the rotation phase: the rotation matrix is flagged valid. -/
def rotateCond (t : Transformation) : Bool := t.R.isValid

/-- The guard of the translation phase: norm(T) > ZERO_TOLERANCE, stated
on squared quantities. -/
def translateCond (t : Transformation) : Bool :=
  (t.T.normSq).gtQ (ZERO_TOLERANCE * ZERO_TOLERANCE)

/-- The scale phase of PointCloud::applyTransformation: when its guard
holds, every point is scaled and the bounding-box cache is invalidated;
otherwise nothing happens. -/
def PointCloud.scalePhase (pc : PointCloud) (t : Transformation) : PointCloud :=
  if scaleCond t then
    { pc with m_points := pc.m_points.map (CCVector3.scl t.s),
              m_bbox := pc.m_bbox.setValidity false }
  else pc

/-- The rotation phase of PointCloud::applyTransformation. -/
def PointCloud.rotatePhase (pc : PointCloud) (t : Transformation) : PointCloud :=
  if rotateCond t then
    { pc with m_points := pc.m_points.map t.R.mulV,
              m_bbox := pc.m_bbox.setValidity false }
  else pc

/-- The translation phase of PointCloud::applyTransformation. -/
def PointCloud.translatePhase (pc : PointCloud) (t : Transformation) : PointCloud :=
  if translateCond t then
    { pc with m_points := pc.m_points.map (fun P => P.addV t.T),
              m_bbox := pc.m_bbox.setValidity false }
  else pc

/-- PointCloud::applyTransformation: the scale phase, then the rotation
phase, then the translation phase, in the fixed source order. -/
def PointCloud.applyTransformation (pc : PointCloud) (t : Transformation) : PointCloud :=
  ((pc.scalePhase t).rotatePhase t).translatePhase t

/-- The linear scan of PointCloud::getScalarFieldIndexByName, carrying the
index of the head of the remaining list. -/
def sfIndexByName (fields : List ScalarField) (nm : String) (i : Nat) : Int :=
  match fields with
  | [] => -1
  | sf :: rest => if sf.name = nm then (i : Int) else sfIndexByName rest nm (i + 1)

/-- PointCloud::getScalarFieldIndexByName: index of the first field with
exactly the given name, or -1. -/
def PointCloud.getScalarFieldIndexByName (pc : PointCloud) (nm : String) : Int :=
  sfIndexByName pc.m_scalarFields nm 0

/-- PointCloud::getScalarField: the field at a valid index, nothing
otherwise. -/
def PointCloud.getScalarField (pc : PointCloud) (index : Int) : Option ScalarField :=
  if h : 0 ≤ index ∧ index < (pc.m_scalarFields.length : Int) then
    some (pc.m_scalarFields.get ⟨index.toNat, by omega⟩)
  else none

def PointCloud.getCurrentInScalarField (pc : PointCloud) : Option ScalarField :=
  pc.getScalarField pc.m_currentInScalarFieldIndex

def PointCloud.getCurrentOutScalarField (pc : PointCloud) : Option ScalarField :=
  pc.getScalarField pc.m_currentOutScalarFieldIndex

/-- PointCloud::addScalarField: refuses a duplicate name with -1, refuses
a failed allocation with -1, and otherwise appends a fresh field sized to
the current point count and returns its index. -/
def PointCloud.addScalarField (pc : PointCloud) (uniqueName : String) (allocOk : Bool) :
    PointCloud × Int :=
  if 0 ≤ pc.getScalarFieldIndexByName uniqueName then (pc, -1)
  else if !allocOk then (pc, -1)
  else
    let sf : ScalarField := ⟨uniqueName, List.replicate pc.size 0, 0, 0⟩
    ({ pc with m_scalarFields := pc.m_scalarFields ++ [sf] },
      (pc.m_scalarFields.length : Int))

/-- The role update performed by PointCloud::deleteScalarField on one of
the two role indices: first the role is cleared if it aims at the deleted
index, then (in the swap-with-last case, when the deleted index is below
lastIndex = sfCount - 1) a role aiming at the last index is remapped to
the deleted index, where the swapped field now lives. -/
def roleAfterDelete (index : Int) (sfCount : Nat) (role : Int) : Int :=
  if (sfCount : Int) - 1 = (if index = role then -1 else role) then index
  else (if index = role then -1 else role)

/-- PointCloud::deleteScalarField: silent no-op out of range; clears the
roles aimed at the deleted index; swap-with-last-then-pop compaction with
role remapping when the deleted field is not the last. -/
def PointCloud.deleteScalarField (pc : PointCloud) (index : Int) : PointCloud :=
  if index < 0 ∨ (pc.m_scalarFields.length : Int) ≤ index then pc
  else if index < (pc.m_scalarFields.length : Int) - 1 then
    { pc with
        m_scalarFields := (listSwap pc.m_scalarFields index.toNat
          (pc.m_scalarFields.length - 1)).dropLast,
        m_currentInScalarFieldIndex :=
          (roleAfterDelete index pc.m_scalarFields.length
            pc.m_currentInScalarFieldIndex),
        m_currentOutScalarFieldIndex :=
          (roleAfterDelete index pc.m_scalarFields.length
            pc.m_currentOutScalarFieldIndex) }
  else
    { pc with
        m_scalarFields := pc.m_scalarFields.dropLast,
        m_currentInScalarFieldIndex :=
          (if index = pc.m_currentInScalarFieldIndex then -1
            else pc.m_currentInScalarFieldIndex),
        m_currentOutScalarFieldIndex :=
          (if index = pc.m_currentOutScalarFieldIndex then -1
            else pc.m_currentOutScalarFieldIndex) }

/-- PointCloud::deleteAllScalarFields: both roles unset, every field
released. -/
def PointCloud.deleteAllScalarFields (pc : PointCloud) : PointCloud :=
  { pc with m_scalarFields := [],
            m_currentInScalarFieldIndex := -1,
            m_currentOutScalarFieldIndex := -1 }

/-- In-place update of the field stored at one position. -/
def updateFieldAt (fields : List ScalarField) (i : Nat) (g : ScalarField → ScalarField) :
    List ScalarField :=
  fields.set i (g (fields.getD i default))

/-- PointCloud::renameScalarField: refuses when the scan finds the new
name anywhere (the field itself included), renames in place otherwise. -/
def PointCloud.renameScalarField (pc : PointCloud) (index : Int) (newName : String) :
    PointCloud × Bool :=
  if pc.getScalarFieldIndexByName newName < 0 then
    match pc.getScalarField index with
    | some _ =>
        ({ pc with m_scalarFields :=
              updateFieldAt pc.m_scalarFields index.toNat (fun sf => sf.setName newName) },
          true)
    | none => (pc, false)
  else (pc, false)

/-- PointCloud::swapPoints: silent no-op for equal or out-of-range
indices; otherwise exchanges the two points and, in every owned field,
the two scalar slots.  The bounding-box cache is not touched. -/
def PointCloud.swapPoints (pc : PointCloud) (firstIndex secondIndex : Nat) : PointCloud :=
  if firstIndex = secondIndex ∨ pc.m_points.length ≤ firstIndex ∨
      pc.m_points.length ≤ secondIndex then pc
  else
    { pc with m_points := listSwap pc.m_points firstIndex secondIndex,
              m_scalarFields :=
                pc.m_scalarFields.map (fun sf => sf.swap firstIndex secondIndex) }

/-- The scalar-field loop of PointCloud::resize, processing the fields in
index order with injected allocation outcomes.  On a failure the failing
field and the ones after it are untouched, while each already-grown field
before it is rolled back to the old count with recomputed statistics. -/
def resizeSFList (newCount oldCount : Nat) (sfOk : Nat → Bool) :
    Nat → List ScalarField → List ScalarField × Bool
  | _, [] => ([], true)
  | i, sf :: rest =>
    match sf.resizeSafe (sfOk i) newCount with
    | none => (sf :: rest, false)
    | some sf1 =>
      let sf2 := sf1.computeMinAndMax
      match resizeSFList newCount oldCount sfOk (i + 1) rest with
      | (rest1, true) => (sf2 :: rest1, true)
      | (rest1, false) => (sf2.rollbackTo oldCount :: rest1, false)

/-- PointCloud::resize with injected allocation outcomes: ptsOk is the
outcome of the point-vector allocation (relevant only when the new count
exceeds the backing capacity), and sfOk i the outcome of the i-th scalar field
safe resize call. -/
def PointCloud.resize (pc : PointCloud) (newCount : Nat) (ptsOk : Bool)
    (sfOk : Nat → Bool) : PointCloud × Bool :=
  if !ptsOk && decide (pc.m_pointsCapacity < newCount) then (pc, false)
  else
    match resizeSFList newCount pc.m_points.length sfOk 0 pc.m_scalarFields with
    | (sfs, true) =>
        ({ pc with m_points := listResize pc.m_points newCount CCVector3.zero,
                   m_pointsCapacity := max pc.m_pointsCapacity newCount,
                   m_scalarFields := sfs },
          true)
    | (sfs, false) =>
        ({ pc with m_points :=
              (listResize (listResize pc.m_points newCount CCVector3.zero)
                pc.m_points.length CCVector3.zero),
                   m_pointsCapacity := max pc.m_pointsCapacity newCount,
                   m_scalarFields := sfs },
          false)

/-- PointCloud::reserve with injected allocation outcomes; field
capacities are not observable in this model, so only the point capacity
and the returned flag are tracked. -/
def PointCloud.reserve (pc : PointCloud) (newCapacity : Nat) (ptsOk sfOk : Bool) :
    PointCloud × Bool :=
  if !ptsOk && decide (pc.m_pointsCapacity < newCapacity) then (pc, false)
  else ({ pc with m_pointsCapacity := max pc.m_pointsCapacity newCapacity }, sfOk)

/-- PointCloud::setPointScalarValue: writes through the current-input
field (guarded here where the source has an assertion). -/
def PointCloud.setPointScalarValue (pc : PointCloud) (pointIndex : Nat) (value : ℚ) :
    PointCloud :=
  if 0 ≤ pc.m_currentInScalarFieldIndex ∧
      pc.m_currentInScalarFieldIndex < (pc.m_scalarFields.length : Int) then
    { pc with m_scalarFields :=
        (updateFieldAt pc.m_scalarFields pc.m_currentInScalarFieldIndex.toNat
          (fun sf => sf.setValue pointIndex value)) }
  else pc

/-- PointCloud::forEach: applies the action to every (point, output
scalar) pair in index order, storing the result of the action back in the
output field; without a designated output field nothing happens. -/
def PointCloud.forEach (pc : PointCloud) (action : CCVector3 → ℚ → ℚ) : PointCloud :=
  match pc.getCurrentOutScalarField with
  | none => pc
  | some _ =>
    let n := pc.size
    { pc with m_scalarFields :=
        (updateFieldAt pc.m_scalarFields pc.m_currentOutScalarFieldIndex.toNat
          (fun sf =>
            { sf with values :=
                (sf.values.mapIdx (fun i v =>
                  if i < n then action (pc.m_points.getD i CCVector3.zero) v else v)) })) }

/-- The final step of PointCloud::enableScalarField: resize the resolved
input field to the point capacity via the safe primitive, reporting
failure when it fails. -/
def PointCloud.enableResize (pc : PointCloud) (resizeOk : Bool) : PointCloud × Bool :=
  match (pc.m_scalarFields.getD pc.m_currentInScalarFieldIndex.toNat
      default).resizeSafe resizeOk pc.m_pointsCapacity with
  | none => (pc, false)
  | some sf1 =>
    ({ pc with m_scalarFields :=
        pc.m_scalarFields.set pc.m_currentInScalarFieldIndex.toNat sf1 }, true)

/-- The tail of PointCloud::enableScalarField after the input field has
been resolved: designate the output field when unset, then resize the
resolved input field to the point capacity via the safe primitive. -/
def PointCloud.enableFinish (pc : PointCloud) (resizeOk : Bool) : PointCloud × Bool :=
  PointCloud.enableResize
    (if pc.getCurrentOutScalarField = none then
      { pc with m_currentOutScalarFieldIndex := pc.m_currentInScalarFieldIndex }
    else pc) resizeOk

/-- PointCloud::enableScalarField with injected allocation outcomes for
the possible creation of the Default field and for the final safe
resize. -/
def PointCloud.enableScalarField (pc : PointCloud) (allocOk resizeOk : Bool) :
    PointCloud × Bool :=
  match pc.getCurrentInScalarField with
  | some _ => pc.enableFinish resizeOk
  | none =>
    if 0 ≤ pc.getScalarFieldIndexByName "Default" then
      ({ pc with m_currentInScalarFieldIndex :=
          pc.getScalarFieldIndexByName "Default" }).enableFinish resizeOk
    else if (pc.addScalarField "Default" allocOk).2 < 0 then
      ({ (pc.addScalarField "Default" allocOk).1 with
          m_currentInScalarFieldIndex :=
            (pc.addScalarField "Default" allocOk).2 },
        false)
    else
      ({ (pc.addScalarField "Default" allocOk).1 with
          m_currentInScalarFieldIndex :=
            (pc.addScalarField "Default" allocOk).2 }).enableFinish resizeOk

/-- PointCloud::clear: points emptied, fields released, iterator reset,
bounding box invalidated. -/
def PointCloud.clear (pc : PointCloud) : PointCloud :=
  ((({ pc with m_points := [] } :
      PointCloud).deleteAllScalarFields).placeIteratorAtBeginning).invalidateBoundingBox

/-- One public mutating operation of the cloud, with allocation outcomes
injected where the source operation can meet an allocation failure. -/
inductive CloudOp where
  | addPoint (P : CCVector3)
  | resize (n : Nat) (ptsOk : Bool) (sfOk : Nat → Bool)
  | reserve (n : Nat) (ptsOk sfOk : Bool)
  | addScalarField (nm : String) (allocOk : Bool)
  | deleteScalarField (index : Int)
  | deleteAllScalarFields
  | renameScalarField (index : Int) (newName : String)
  | enableScalarField (allocOk resizeOk : Bool)
  | swapPoints (i j : Nat)
  | applyTransformation (t : Transformation)
  | getBoundingBox
  | setPointScalarValue (i : Nat) (v : ℚ)
  | forEach (action : CCVector3 → ℚ → ℚ)
  | placeIteratorAtBeginning
  | getNextPoint
  | clear

/-- The state transition of one operation. -/
def PointCloud.step (pc : PointCloud) : CloudOp → PointCloud
  | .addPoint P => pc.addPoint P
  | .resize n a b => (pc.resize n a b).1
  | .reserve n a b => (pc.reserve n a b).1
  | .addScalarField nm a => (pc.addScalarField nm a).1
  | .deleteScalarField i => pc.deleteScalarField i
  | .deleteAllScalarFields => pc.deleteAllScalarFields
  | .renameScalarField i nm => (pc.renameScalarField i nm).1
  | .enableScalarField a r => (pc.enableScalarField a r).1
  | .swapPoints i j => pc.swapPoints i j
  | .applyTransformation t => pc.applyTransformation t
  | .getBoundingBox => pc.getBoundingBox.1
  | .setPointScalarValue i v => pc.setPointScalarValue i v
  | .forEach f => pc.forEach f
  | .placeIteratorAtBeginning => pc.placeIteratorAtBeginning
  | .getNextPoint => pc.getNextPoint.1
  | .clear => pc.clear

/-- The state reached from a default-constructed cloud by a sequence of
operations. -/
def PointCloud.execOps (ops : List CloudOp) : PointCloud :=
  ops.foldl PointCloud.step PointCloud.empty

/-! ### List helper lemmas -/

theorem listGetD_eq {α : Type} [Inhabited α] (l : List α) (i : Nat) (h : i < l.length) :
    l.getD i default = l[i] := by
  simp [List.getD_eq_getElem?_getD, List.getElem?_eq_getElem h]

theorem getD_set_self {α : Type} [Inhabited α] (l : List α) (i : Nat) (a : α)
    (h : i < l.length) : (l.set i a).getD i default = a := by
  simp [List.getD_eq_getElem?_getD, List.getElem?_set_self h]

theorem getD_set_ne {α : Type} [Inhabited α] (l : List α) (i k : Nat) (a : α)
    (h : i ≠ k) : (l.set i a).getD k default = l.getD k default := by
  simp [List.getD_eq_getElem?_getD, List.getElem?_set_ne h]

theorem set_own {α : Type} (l : List α) (i : Nat) (h : i < l.length) :
    l.set i l[i] = l := by
  apply List.ext_getElem (by simp)
  intro k h1 h2
  rw [List.getElem_set]
  split
  · next heq => subst heq; rfl
  · rfl

theorem set_getD_own {α : Type} [Inhabited α] (l : List α) (i : Nat)
    (h : i < l.length) : l.set i (l.getD i default) = l := by
  rw [listGetD_eq _ _ h]
  exact set_own l i h

theorem listSwap_length {α : Type} [Inhabited α] (l : List α) (i j : Nat) :
    (listSwap l i j).length = l.length := by simp [listSwap]

theorem listSwap_self {α : Type} [Inhabited α] (l : List α) (i : Nat) :
    listSwap l i i = l := by
  unfold listSwap
  by_cases h : i < l.length
  · rw [List.set_set, listGetD_eq l i h, set_own l i h]
  · have h1 : l.set i (l.getD i default) = l :=
      List.set_eq_of_length_le (by omega)
    rw [h1, h1]

theorem listSwap_comm {α : Type} [Inhabited α] (l : List α) (i j : Nat) (h : i ≠ j) :
    listSwap l i j = listSwap l j i := by
  unfold listSwap
  rw [List.set_comm _ _ _ h]

theorem listSwap_zero_succ {α : Type} [Inhabited α] (x : α) (xs : List α) (m : Nat) :
    listSwap (x :: xs) 0 (m + 1) = xs.getD m default :: xs.set m x := by
  simp [listSwap]

theorem listSwap_succ_succ {α : Type} [Inhabited α] (x : α) (xs : List α) (n m : Nat) :
    listSwap (x :: xs) (n + 1) (m + 1) = x :: listSwap xs n m := by
  simp [listSwap]

theorem perm_cons_set {α : Type} [Inhabited α] :
    ∀ (xs : List α) (m : Nat), m < xs.length → ∀ x : α,
      (xs.getD m default :: xs.set m x).Perm (x :: xs) := by
  intro xs
  induction xs with
  | nil => intro m hm; simp at hm
  | cons y ys ih =>
    intro m hm x
    cases m with
    | zero => simpa using List.Perm.swap x y ys
    | succ k =>
      have hk : k < ys.length := by simpa using hm
      have h1 : (ys.getD k default :: y :: ys.set k x).Perm
          (y :: ys.getD k default :: ys.set k x) :=
        List.Perm.swap y (ys.getD k default) (ys.set k x)
      have h2 : (y :: ys.getD k default :: ys.set k x).Perm (y :: (x :: ys)) :=
        (ih k hk x).cons y
      have h3 : (y :: x :: ys).Perm (x :: y :: ys) := List.Perm.swap x y ys
      simpa using (h1.trans h2).trans h3

theorem listSwap_perm {α : Type} [Inhabited α] :
    ∀ (l : List α) (i j : Nat), i < l.length → j < l.length →
      (listSwap l i j).Perm l := by
  intro l
  induction l with
  | nil => intro i j hi _; simp at hi
  | cons x xs ih =>
    intro i j hi hj
    by_cases hij : i = j
    · subst hij
      rw [listSwap_self]
    · cases i with
      | zero =>
        cases j with
        | zero => exact absurd rfl hij
        | succ m =>
          have hm : m < xs.length := by simpa using hj
          rw [listSwap_zero_succ]
          exact perm_cons_set xs m hm x
      | succ n =>
        cases j with
        | zero =>
          have hn : n < xs.length := by simpa using hi
          rw [listSwap_comm _ _ _ hij, listSwap_zero_succ]
          exact perm_cons_set xs n hn x
        | succ m =>
          have hn : n < xs.length := by simpa using hi
          have hm : m < xs.length := by simpa using hj
          rw [listSwap_succ_succ]
          exact (ih n m hn hm).cons x

theorem listSwap_getD_fst {α : Type} [Inhabited α] (l : List α) (i j : Nat)
    (hi : i < l.length) (hij : i ≠ j) :
    (listSwap l i j).getD i default = l.getD j default := by
  unfold listSwap
  rw [getD_set_ne _ _ _ _ (Ne.symm hij), getD_set_self _ _ _ hi]

theorem listSwap_getD_snd {α : Type} [Inhabited α] (l : List α) (i j : Nat)
    (hj : j < l.length) :
    (listSwap l i j).getD j default = l.getD i default := by
  unfold listSwap
  rw [getD_set_self _ _ _ (by simpa using hj)]

theorem listSwap_getD_other {α : Type} [Inhabited α] (l : List α) (i j k : Nat)
    (hik : i ≠ k) (hjk : j ≠ k) :
    (listSwap l i j).getD k default = l.getD k default := by
  unfold listSwap
  rw [getD_set_ne _ _ _ _ hjk, getD_set_ne _ _ _ _ hik]

theorem listExt_getD {α : Type} [Inhabited α] (l1 l2 : List α)
    (hlen : l1.length = l2.length)
    (h : ∀ k, k < l1.length → l1.getD k default = l2.getD k default) : l1 = l2 := by
  apply List.ext_getElem hlen
  intro k h1 h2
  rw [← listGetD_eq l1 k h1, ← listGetD_eq l2 k h2]
  exact h k h1

theorem listSwap_listSwap {α : Type} [Inhabited α] (l : List α) (i j : Nat)
    (hi : i < l.length) (hj : j < l.length) (hij : i ≠ j) :
    listSwap (listSwap l i j) i j = l := by
  have hi2 : i < (listSwap l i j).length := by rw [listSwap_length]; exact hi
  have hj2 : j < (listSwap l i j).length := by rw [listSwap_length]; exact hj
  apply listExt_getD _ _ (by rw [listSwap_length, listSwap_length])
  intro k hk
  by_cases hki : k = i
  · subst hki
    rw [listSwap_getD_fst _ k j hi2 hij, listSwap_getD_snd l k j hj]
  · by_cases hkj : k = j
    · subst hkj
      rw [listSwap_getD_snd _ i k hj2, listSwap_getD_fst l i k hi (fun e => hij e)]
    · rw [listSwap_getD_other _ i j k (fun e => hki e.symm) (fun e => hkj e.symm),
        listSwap_getD_other l i j k (fun e => hki e.symm) (fun e => hkj e.symm)]

/-! ### Bounding-box fold lemmas -/

theorem fmin_right_comm (a b c : Flt) : (a.fmin b).fmin c = (a.fmin c).fmin b := by
  simp [Flt.fmin, min_right_comm, Bool.or_right_comm]

theorem fmax_right_comm (a b c : Flt) : (a.fmax b).fmax c = (a.fmax c).fmax b := by
  simp [Flt.fmax, sup_right_comm, Bool.or_right_comm]

theorem boxAdd_right_comm (b : BoundingBox) (p q : CCVector3) :
    (b.add p).add q = (b.add q).add p := by
  unfold BoundingBox.add
  by_cases h : b.m_valid = true
  · simp [h, CCVector3.minV, CCVector3.maxV, fmin_right_comm, fmax_right_comm]
  · simp [Bool.not_eq_true] at h
    simp [h, CCVector3.minV, CCVector3.maxV, Flt.fmin, Flt.fmax,
      min_comm, max_comm, Bool.or_comm]

theorem computeBox_perm {l1 l2 : List CCVector3} (h : l1.Perm l2) :
    computeBox l1 = computeBox l2 := by
  unfold computeBox
  rw [h.foldl_eq' (fun p _ q _ b => boxAdd_right_comm b p q) BoundingBox.cleared]

theorem computeBox_listSwap (l : List CCVector3) (i j : Nat)
    (hi : i < l.length) (hj : j < l.length) :
    computeBox (listSwap l i j) = computeBox l :=
  computeBox_perm (listSwap_perm l i j hi hj)

/-! ### Claim C2: addPoint -/

/-- The sanitization addPoint applies before appending. -/
def sanitizePoint (P : CCVector3) : CCVector3 :=
  if P.x.selfNe || P.y.selfNe || P.z.selfNe then CCVector3.zero else P

theorem addPoint_points (pc : PointCloud) (P : CCVector3) :
    (pc.addPoint P).m_points = pc.m_points ++ [sanitizePoint P] := rfl

theorem foldl_addPoint_points :
    ∀ (ps : List CCVector3) (pc : PointCloud),
      ((ps.map CloudOp.addPoint).foldl PointCloud.step pc).m_points
        = pc.m_points ++ ps.map sanitizePoint := by
  intro ps
  induction ps with
  | nil => intro pc; simp
  | cons p rest ih =>
    intro pc
    simp only [List.map_cons, List.foldl_cons]
    rw [ih]
    show (pc.addPoint p).m_points ++ rest.map sanitizePoint = _
    rw [addPoint_points]
    simp

/-- C2: for every sequence of addPoint calls starting from a
default-constructed cloud, the size afterwards equals the number of calls
and the stored points appear in call order; each call appends at the old
size; a point with a coordinate failing the self-inequality test is
stored as the canonical origin, any other point is stored as given; and
every call leaves the bounding-box cache invalid. -/
theorem addPoint_sequence_spec :
    (∀ ps : List CCVector3,
        (PointCloud.execOps (ps.map CloudOp.addPoint)).size = ps.length ∧
        (PointCloud.execOps (ps.map CloudOp.addPoint)).m_points
          = ps.map sanitizePoint) ∧
    (∀ (pc : PointCloud) (P : CCVector3),
        (pc.addPoint P).m_points = pc.m_points ++ [sanitizePoint P] ∧
        (pc.addPoint P).size = pc.size + 1 ∧
        (pc.addPoint P).m_bbox.m_valid = false) ∧
    (∀ P : CCVector3,
        ((P.x.selfNe || P.y.selfNe || P.z.selfNe) = true →
          sanitizePoint P = CCVector3.zero) ∧
        ((P.x.selfNe || P.y.selfNe || P.z.selfNe) = false →
          sanitizePoint P = P)) := by
  refine ⟨fun ps => ?_, fun pc P => ?_, fun P => ?_⟩
  · have h := foldl_addPoint_points ps PointCloud.empty
    unfold PointCloud.execOps at *
    constructor
    · unfold PointCloud.size
      rw [h]
      simp [PointCloud.empty]
    · rw [h]
      simp [PointCloud.empty]
  · refine ⟨addPoint_points pc P, ?_, rfl⟩
    unfold PointCloud.size
    rw [addPoint_points]
    simp
  · constructor
    · intro h
      simp [sanitizePoint, h]
    · intro h
      simp [sanitizePoint, h]

/-- Witness for the hypothesis-bearing conjuncts of the C2 theorem, at a
not-a-number point and at a clean point. -/
theorem addPoint_sequence_spec_witness :
    sanitizePoint ⟨⟨1, true⟩, Flt.ofQ 0, Flt.ofQ 0⟩ = CCVector3.zero ∧
    sanitizePoint ⟨Flt.ofQ 1, Flt.ofQ 2, Flt.ofQ 3⟩
      = ⟨Flt.ofQ 1, Flt.ofQ 2, Flt.ofQ 3⟩ :=
  ⟨(addPoint_sequence_spec.2.2 _).1 (by decide),
   (addPoint_sequence_spec.2.2 _).2 (by decide)⟩

/-! ### Claim C3: swapPoints -/

theorem ScalarField.swap_values_length (sf : ScalarField) (i j : Nat) :
    (sf.swap i j).values.length = sf.values.length := by
  unfold ScalarField.swap
  split
  · simp [listSwap_length]
  · rfl

theorem ScalarField.swap_swap (sf : ScalarField) (i j : Nat) (hij : i ≠ j) :
    (sf.swap i j).swap i j = sf := by
  unfold ScalarField.swap
  by_cases h : i < sf.values.length ∧ j < sf.values.length
  · rw [if_pos h]
    rw [if_pos (by simpa [listSwap_length] using h)]
    simp only [listSwap_listSwap sf.values i j h.1 h.2 hij]
  · rw [if_neg h, if_neg h]

theorem swapPoints_noop (pc : PointCloud) (i j : Nat)
    (h : i = j ∨ pc.size ≤ i ∨ pc.size ≤ j) : pc.swapPoints i j = pc := by
  simp only [PointCloud.size] at h
  unfold PointCloud.swapPoints
  rw [if_pos h]

theorem swapPoints_valid (pc : PointCloud) (i j : Nat) (hij : i ≠ j)
    (hi : i < pc.m_points.length) (hj : j < pc.m_points.length) :
    pc.swapPoints i j =
      { pc with m_points := listSwap pc.m_points i j,
                m_scalarFields := pc.m_scalarFields.map (fun sf => sf.swap i j) } := by
  unfold PointCloud.swapPoints
  rw [if_neg]
  push_neg
  exact ⟨hij, hi, hj⟩

theorem swapPoints_involution (pc : PointCloud) (i j : Nat) (hij : i ≠ j)
    (hi : i < pc.m_points.length) (hj : j < pc.m_points.length) :
    (pc.swapPoints i j).swapPoints i j = pc := by
  rw [swapPoints_valid pc i j hij hi hj]
  rw [swapPoints_valid _ i j hij (by simpa [listSwap_length] using hi)
    (by simpa [listSwap_length] using hj)]
  have hmap : (pc.m_scalarFields.map (fun sf => sf.swap i j)).map
      (fun sf => sf.swap i j) = pc.m_scalarFields := by
    rw [List.map_map]
    exact List.map_id'' (fun sf => ScalarField.swap_swap sf i j hij) _
  simp only [listSwap_listSwap pc.m_points i j hi hj hij, hmap]

/-- C3: swapPoints is a silent no-op for equal or out-of-range indices;
otherwise it exchanges the two point coordinates and, in every owned
scalar field, the two corresponding scalar slots, leaving every other
slot in place; and for valid distinct indices the operation is an
involution on the whole cloud state. -/
theorem swapPoints_spec :
    (∀ (pc : PointCloud) (i j : Nat),
        i = j ∨ pc.size ≤ i ∨ pc.size ≤ j → pc.swapPoints i j = pc) ∧
    (∀ (pc : PointCloud) (i j : Nat), i ≠ j → i < pc.size → j < pc.size →
        (pc.swapPoints i j).m_points.getD i default = pc.m_points.getD j default ∧
        (pc.swapPoints i j).m_points.getD j default = pc.m_points.getD i default ∧
        (∀ k : Nat, k ≠ i → k ≠ j →
          (pc.swapPoints i j).m_points.getD k default
            = pc.m_points.getD k default) ∧
        (pc.swapPoints i j).m_scalarFields
          = pc.m_scalarFields.map (fun sf => sf.swap i j) ∧
        (∀ sf : ScalarField, i < sf.values.length → j < sf.values.length →
          (sf.swap i j).values.getD i default = sf.values.getD j default ∧
          (sf.swap i j).values.getD j default = sf.values.getD i default) ∧
        (pc.swapPoints i j).swapPoints i j = pc) := by
  refine ⟨swapPoints_noop, fun pc i j hij hi hj => ?_⟩
  simp only [PointCloud.size] at hi hj
  have hswap := swapPoints_valid pc i j hij hi hj
  refine ⟨?_, ?_, ?_, ?_, ?_, swapPoints_involution pc i j hij hi hj⟩
  · rw [hswap]
    exact listSwap_getD_fst pc.m_points i j hi hij
  · rw [hswap]
    exact listSwap_getD_snd pc.m_points i j hj
  · intro k hki hkj
    rw [hswap]
    exact listSwap_getD_other pc.m_points i j k (fun e => hki e.symm)
      (fun e => hkj e.symm)
  · rw [hswap]
  · intro sf hsfi hsfj
    unfold ScalarField.swap
    rw [if_pos ⟨hsfi, hsfj⟩]
    exact ⟨listSwap_getD_fst sf.values i j hsfi hij,
      listSwap_getD_snd sf.values i j hsfj⟩

/-- Witness for the C3 theorem on a concrete two-point cloud with one
scalar field. -/
theorem swapPoints_spec_witness :
    (PointCloud.swapPoints
        ⟨[CCVector3.zero, ⟨Flt.ofQ 1, Flt.ofQ 2, Flt.ofQ 3⟩], 2,
          BoundingBox.cleared, [⟨"A", [5, 7], 5, 7⟩], -1, -1, 0⟩ 0 0
      = ⟨[CCVector3.zero, ⟨Flt.ofQ 1, Flt.ofQ 2, Flt.ofQ 3⟩], 2,
          BoundingBox.cleared, [⟨"A", [5, 7], 5, 7⟩], -1, -1, 0⟩) ∧
    ((PointCloud.swapPoints
        ⟨[CCVector3.zero, ⟨Flt.ofQ 1, Flt.ofQ 2, Flt.ofQ 3⟩], 2,
          BoundingBox.cleared, [⟨"A", [5, 7], 5, 7⟩], -1, -1, 0⟩ 0 1).swapPoints 0 1
      = ⟨[CCVector3.zero, ⟨Flt.ofQ 1, Flt.ofQ 2, Flt.ofQ 3⟩], 2,
          BoundingBox.cleared, [⟨"A", [5, 7], 5, 7⟩], -1, -1, 0⟩) :=
  ⟨swapPoints_spec.1 _ 0 0 (Or.inl rfl),
   (swapPoints_spec.2 _ 0 1 (by decide) (by decide) (by decide)).2.2.2.2.2⟩

/-! ### Claim C9: renameScalarField -/

/-- A one-field cloud whose single field is named A. -/
def pcOneFieldA : PointCloud :=
  ⟨[], 0, BoundingBox.cleared, [⟨"A", [], 0, 0⟩], -1, -1, 0⟩

/-- C9 counterexample: the claim says renaming fails only when ANOTHER
field owns the new name, and that renaming to a name owned by no other
field succeeds.  On a cloud whose only field (index 0) is named A, no
other field owns A, yet renameScalarField 0 A returns false and changes
nothing, because the name scan finds the field itself. -/
theorem renameScalarField_self_counterexample :
    pcOneFieldA.m_scalarFields.length = 1 ∧
    (pcOneFieldA.renameScalarField 0 "A").2 = false ∧
    (pcOneFieldA.renameScalarField 0 "A").1 = pcOneFieldA := by decide

/-- C9 (amended): renameScalarField fails (returns false, no change)
whenever the name scan finds newName on any field, the renamed field
itself included; when newName is owned by no field at all, it renames the
field at a valid index in place and returns true, and fails with no
change at an invalid index. -/
theorem renameScalarField_spec :
    (∀ (pc : PointCloud) (index : Int) (newName : String),
        0 ≤ pc.getScalarFieldIndexByName newName →
        pc.renameScalarField index newName = (pc, false)) ∧
    (∀ (pc : PointCloud) (index : Int) (newName : String),
        pc.getScalarFieldIndexByName newName < 0 →
        0 ≤ index → index < (pc.m_scalarFields.length : Int) →
        (pc.renameScalarField index newName).2 = true ∧
        ((pc.renameScalarField index newName).1).m_scalarFields
          = updateFieldAt pc.m_scalarFields index.toNat
              (fun sf => sf.setName newName)) ∧
    (∀ (pc : PointCloud) (index : Int) (newName : String),
        pc.getScalarFieldIndexByName newName < 0 →
        (index < 0 ∨ (pc.m_scalarFields.length : Int) ≤ index) →
        pc.renameScalarField index newName = (pc, false)) := by
  refine ⟨fun pc index newName h => ?_, fun pc index newName h h0 hlen => ?_,
    fun pc index newName h hbad => ?_⟩
  · unfold PointCloud.renameScalarField
    rw [if_neg (by omega)]
  · unfold PointCloud.renameScalarField
    rw [if_pos h]
    unfold PointCloud.getScalarField
    rw [dif_pos ⟨h0, hlen⟩]
    exact ⟨rfl, rfl⟩
  · unfold PointCloud.renameScalarField
    rw [if_pos h]
    unfold PointCloud.getScalarField
    rw [dif_neg (by omega)]

/-- Witness for the C9 amended theorem: renaming the single field A of a
concrete cloud to the unused name B succeeds. -/
theorem renameScalarField_spec_witness :
    (pcOneFieldA.renameScalarField 0 "B").2 = true ∧
    (pcOneFieldA.renameScalarField 0 "A") = (pcOneFieldA, false) :=
  ⟨(renameScalarField_spec.2.1 pcOneFieldA 0 "B" (by decide) (by decide)
      (by decide)).1,
   renameScalarField_spec.1 pcOneFieldA 0 "A" (by decide)⟩

/-! ### Scalar-field name lemmas -/

/-- The list of field names of a cloud, in field order. -/
def fieldNames (pc : PointCloud) : List String :=
  pc.m_scalarFields.map (fun sf => sf.name)

theorem sfIndexByName_neg_iff :
    ∀ (fields : List ScalarField) (nm : String) (i : Nat),
      (sfIndexByName fields nm i < 0 ↔ nm ∉ fields.map (fun sf => sf.name)) := by
  intro fields nm
  induction fields with
  | nil => intro i; simp [sfIndexByName]
  | cons sf rest ih =>
    intro i
    unfold sfIndexByName
    by_cases h : sf.name = nm
    · rw [if_pos h]
      simp only [List.map_cons, List.mem_cons, h]
      constructor
      · intro hlt; omega
      · intro hm; simp at hm
    · rw [if_neg h]
      rw [ih (i + 1)]
      simp only [List.map_cons, List.mem_cons]
      constructor
      · intro hm hc
        rcases hc with hc | hc
        · exact h hc.symm
        · exact hm hc
      · intro hm hc
        exact hm (Or.inr hc)

theorem sfIndexByName_pos_lt :
    ∀ (fields : List ScalarField) (nm : String) (i : Nat),
      0 ≤ sfIndexByName fields nm i →
      (i : Int) ≤ sfIndexByName fields nm i ∧
        sfIndexByName fields nm i < (i : Int) + fields.length := by
  intro fields nm
  induction fields with
  | nil => intro i h; simp [sfIndexByName] at h
  | cons sf rest ih =>
    intro i h
    unfold sfIndexByName at h ⊢
    by_cases hn : sf.name = nm
    · rw [if_pos hn]
      simp only [List.length_cons]
      omega
    · rw [if_neg hn]
      rw [if_neg hn] at h
      have := ih (i + 1) h
      simp only [List.length_cons]
      push_cast at this ⊢
      omega

theorem ScalarField.computeMinAndMax_name (sf : ScalarField) :
    sf.computeMinAndMax.name = sf.name := by
  unfold ScalarField.computeMinAndMax
  split <;> rfl

theorem ScalarField.computeMinAndMax_values (sf : ScalarField) :
    sf.computeMinAndMax.values = sf.values := by
  unfold ScalarField.computeMinAndMax
  split
  · next heq => rw [heq]
  · rfl

theorem ScalarField.resizeSafe_some {sf sf1 : ScalarField} {ok : Bool} {n : Nat}
    (h : sf.resizeSafe ok n = some sf1) : sf1 = sf.resize n := by
  unfold ScalarField.resizeSafe at h
  split at h
  · exact (Option.some_inj.mp h).symm
  · split at h
    · exact (Option.some_inj.mp h).symm
    · exact absurd h (by simp)

theorem resizeSFList_names (nc oc : Nat) (ok : Nat → Bool) :
    ∀ (i : Nat) (fields : List ScalarField),
      ((resizeSFList nc oc ok i fields).1).map (fun sf => sf.name)
        = fields.map (fun sf => sf.name) := by
  intro i fields
  induction fields generalizing i with
  | nil => rfl
  | cons sf rest ih =>
    unfold resizeSFList
    cases hr : sf.resizeSafe (ok i) nc with
    | none => rfl
    | some sf1 =>
      have hname : sf1.name = sf.name := by
        rw [ScalarField.resizeSafe_some hr]; rfl
      cases hrec : resizeSFList nc oc ok (i + 1) rest with
      | mk rest1 b =>
        have ihname : rest1.map (fun sf => sf.name)
            = rest.map (fun sf => sf.name) := by
          have := ih (i + 1)
          rw [hrec] at this
          exact this
        cases b with
        | true =>
          simp only [List.map_cons, ihname, ScalarField.computeMinAndMax_name,
            hname]
        | false =>
          simp only [List.map_cons, ihname, ScalarField.rollbackTo,
            ScalarField.computeMinAndMax_name, ScalarField.resize, hname]

theorem updateFieldAt_names (fields : List ScalarField) (i : Nat)
    (g : ScalarField → ScalarField) (hg : ∀ sf, (g sf).name = sf.name) :
    (updateFieldAt fields i g).map (fun sf => sf.name)
      = fields.map (fun sf => sf.name) := by
  unfold updateFieldAt
  by_cases h : i < fields.length
  · rw [List.map_set, hg]
    have he : (fields.getD i default).name
        = (fields.map (fun sf => sf.name)).getD i default := by
      rw [listGetD_eq fields i h,
        listGetD_eq (fields.map (fun sf => sf.name)) i (by simpa using h)]
      simp
    rw [he, set_getD_own _ _ (by simpa using h)]
  · rw [List.set_eq_of_length_le (by omega)]

theorem nodup_set_fresh {α : Type} :
    ∀ (l : List α) (i : Nat) (a : α), l.Nodup → a ∉ l → (l.set i a).Nodup := by
  intro l
  induction l with
  | nil => intro i a _ _; simp
  | cons x xs ih =>
    intro i a hnd hna
    rw [List.nodup_cons] at hnd
    cases i with
    | zero =>
      rw [List.set_cons_zero, List.nodup_cons]
      exact ⟨fun hm => hna (List.mem_cons_of_mem x hm), hnd.2⟩
    | succ k =>
      rw [List.set_cons_succ, List.nodup_cons]
      constructor
      · intro hm
        rcases List.mem_or_eq_of_mem_set hm with hm2 | hm2
        · exact hnd.1 hm2
        · exact hna (hm2 ▸ List.mem_cons_self x xs)
      · exact ih k a hnd.2 (fun hm => hna (List.mem_cons_of_mem x hm))

/-! ### Field lists across each operation -/

theorem namesNodup_of_names_eq {pc1 pc2 : PointCloud}
    (he : pc2.m_scalarFields.map (fun sf => sf.name)
      = pc1.m_scalarFields.map (fun sf => sf.name))
    (h : (pc1.m_scalarFields.map (fun sf => sf.name)).Nodup) :
    (pc2.m_scalarFields.map (fun sf => sf.name)).Nodup := by
  rw [he]; exact h

theorem resize_fst_names (pc : PointCloud) (n : Nat) (a : Bool) (b : Nat → Bool) :
    ((pc.resize n a b).1).m_scalarFields.map (fun sf => sf.name)
      = pc.m_scalarFields.map (fun sf => sf.name) := by
  unfold PointCloud.resize
  split
  · rfl
  · split
    · next sfs heq =>
        have h2 := resizeSFList_names n pc.m_points.length b 0 pc.m_scalarFields
        rw [heq] at h2
        exact h2
    · next sfs heq =>
        have h2 := resizeSFList_names n pc.m_points.length b 0 pc.m_scalarFields
        rw [heq] at h2
        exact h2

theorem reserve_fst_fields (pc : PointCloud) (n : Nat) (a b : Bool) :
    ((pc.reserve n a b).1).m_scalarFields = pc.m_scalarFields := by
  unfold PointCloud.reserve
  split <;> rfl

theorem addScalarField_cases (pc : PointCloud) (nm : String) (ok : Bool) :
    ((pc.addScalarField nm ok).1 = pc ∧ (pc.addScalarField nm ok).2 = -1) ∨
    (pc.getScalarFieldIndexByName nm < 0 ∧
      (pc.addScalarField nm ok).1.m_scalarFields
        = pc.m_scalarFields ++ [⟨nm, List.replicate pc.size 0, 0, 0⟩] ∧
      (pc.addScalarField nm ok).1.m_points = pc.m_points ∧
      (pc.addScalarField nm ok).1.m_currentInScalarFieldIndex
        = pc.m_currentInScalarFieldIndex ∧
      (pc.addScalarField nm ok).1.m_currentOutScalarFieldIndex
        = pc.m_currentOutScalarFieldIndex ∧
      (pc.addScalarField nm ok).2 = (pc.m_scalarFields.length : Int)) := by
  unfold PointCloud.addScalarField
  split
  · left; exact ⟨rfl, rfl⟩
  · split
    · left; exact ⟨rfl, rfl⟩
    · next h _ => right; exact ⟨by omega, rfl, rfl, rfl, rfl, rfl⟩

theorem deleteScalarField_fields (pc : PointCloud) (index : Int) :
    (pc.deleteScalarField index).m_scalarFields = pc.m_scalarFields ∨
    (∃ i : Nat, i < pc.m_scalarFields.length ∧
      (pc.deleteScalarField index).m_scalarFields
        = (listSwap pc.m_scalarFields i (pc.m_scalarFields.length - 1)).dropLast) ∨
    (pc.deleteScalarField index).m_scalarFields = pc.m_scalarFields.dropLast := by
  unfold PointCloud.deleteScalarField
  split
  · left; rfl
  · next hrange =>
    push_neg at hrange
    split
    · next hlt =>
      right; left
      exact ⟨index.toNat, by omega, rfl⟩
    · right; right; rfl

theorem ScalarField.swap_name (sf : ScalarField) (i j : Nat) :
    (sf.swap i j).name = sf.name := by
  unfold ScalarField.swap
  split <;> rfl

theorem swapPoints_fields_names (pc : PointCloud) (i j : Nat) :
    ((pc.swapPoints i j).m_scalarFields).map (fun sf => sf.name)
      = pc.m_scalarFields.map (fun sf => sf.name) := by
  unfold PointCloud.swapPoints
  split
  · rfl
  · rw [List.map_map]
    exact List.map_congr_left (fun sf _ => ScalarField.swap_name sf i j)

theorem scalePhase_fields (pc : PointCloud) (t : Transformation) :
    (pc.scalePhase t).m_scalarFields = pc.m_scalarFields := by
  unfold PointCloud.scalePhase
  split <;> rfl

theorem rotatePhase_fields (pc : PointCloud) (t : Transformation) :
    (pc.rotatePhase t).m_scalarFields = pc.m_scalarFields := by
  unfold PointCloud.rotatePhase
  split <;> rfl

theorem translatePhase_fields (pc : PointCloud) (t : Transformation) :
    (pc.translatePhase t).m_scalarFields = pc.m_scalarFields := by
  unfold PointCloud.translatePhase
  split <;> rfl

theorem applyTransformation_fields (pc : PointCloud) (t : Transformation) :
    (pc.applyTransformation t).m_scalarFields = pc.m_scalarFields := by
  unfold PointCloud.applyTransformation
  rw [translatePhase_fields, rotatePhase_fields, scalePhase_fields]

theorem getBoundingBox_fst_fields (pc : PointCloud) :
    (pc.getBoundingBox.1).m_scalarFields = pc.m_scalarFields := by
  unfold PointCloud.getBoundingBox
  split <;> rfl

theorem getNextPoint_fst_fields (pc : PointCloud) :
    (pc.getNextPoint.1).m_scalarFields = pc.m_scalarFields := by
  unfold PointCloud.getNextPoint
  split <;> rfl

theorem setPointScalarValue_names (pc : PointCloud) (i : Nat) (v : ℚ) :
    ((pc.setPointScalarValue i v).m_scalarFields).map (fun sf => sf.name)
      = pc.m_scalarFields.map (fun sf => sf.name) := by
  unfold PointCloud.setPointScalarValue
  split
  · show (updateFieldAt pc.m_scalarFields pc.m_currentInScalarFieldIndex.toNat
        (fun sf => sf.setValue i v)).map (fun sf => sf.name)
      = pc.m_scalarFields.map (fun sf => sf.name)
    exact updateFieldAt_names _ _ _ (fun sf => rfl)
  · rfl

theorem forEach_names (pc : PointCloud) (action : CCVector3 → ℚ → ℚ) :
    ((pc.forEach action).m_scalarFields).map (fun sf => sf.name)
      = pc.m_scalarFields.map (fun sf => sf.name) := by
  unfold PointCloud.forEach
  cases pc.getCurrentOutScalarField with
  | none => rfl
  | some sf =>
    show (updateFieldAt pc.m_scalarFields pc.m_currentOutScalarFieldIndex.toNat
        (fun sf =>
          { sf with values :=
              (sf.values.mapIdx (fun i v =>
                if i < pc.size then action (pc.m_points.getD i CCVector3.zero) v
                else v)) })).map (fun sf => sf.name)
      = pc.m_scalarFields.map (fun sf => sf.name)
    exact updateFieldAt_names _ _ _ (fun sf => rfl)

theorem enableResize_names (pc : PointCloud) (r : Bool) :
    (((pc.enableResize r).1).m_scalarFields).map (fun sf => sf.name)
      = pc.m_scalarFields.map (fun sf => sf.name) := by
  unfold PointCloud.enableResize
  cases hr : (pc.m_scalarFields.getD pc.m_currentInScalarFieldIndex.toNat
      default).resizeSafe r pc.m_pointsCapacity with
  | none => rfl
  | some sf1 =>
    simp only []
    have hname : sf1.name
        = (pc.m_scalarFields.getD pc.m_currentInScalarFieldIndex.toNat
            default).name := by
      rw [ScalarField.resizeSafe_some hr]; rfl
    by_cases hi : pc.m_currentInScalarFieldIndex.toNat < pc.m_scalarFields.length
    · rw [List.map_set, hname]
      have he : (pc.m_scalarFields.getD
            pc.m_currentInScalarFieldIndex.toNat default).name
          = (pc.m_scalarFields.map (fun sf => sf.name)).getD
              pc.m_currentInScalarFieldIndex.toNat default := by
        rw [listGetD_eq _ _ hi,
          listGetD_eq (pc.m_scalarFields.map (fun sf => sf.name)) _
            (by simpa using hi)]
        simp
      rw [he, set_getD_own _ _ (by simpa using hi)]
    · rw [List.set_eq_of_length_le (by omega)]

theorem enableFinish_names (pc : PointCloud) (r : Bool) :
    (((pc.enableFinish r).1).m_scalarFields).map (fun sf => sf.name)
      = pc.m_scalarFields.map (fun sf => sf.name) := by
  unfold PointCloud.enableFinish
  split
  · exact enableResize_names _ r
  · exact enableResize_names _ r

/-! ### Uniqueness of scalar-field names -/

/-- The field names of a cloud are pairwise distinct. -/
def NamesNodup (pc : PointCloud) : Prop :=
  (pc.m_scalarFields.map (fun sf => sf.name)).Nodup

theorem namesNodup_addScalarField (pc : PointCloud) (nm : String) (ok : Bool)
    (h : NamesNodup pc) : NamesNodup (pc.addScalarField nm ok).1 := by
  rcases addScalarField_cases pc nm ok with ⟨he, _⟩ | ⟨hneg, hf, _⟩
  · rw [NamesNodup, he]; exact h
  · unfold NamesNodup at h ⊢
    rw [hf, List.map_append, List.nodup_append]
    refine ⟨h, by simp, ?_⟩
    intro a ha hb
    simp only [List.map_cons, List.map_nil, List.mem_singleton] at hb
    rw [hb] at ha
    exact (sfIndexByName_neg_iff pc.m_scalarFields nm 0).mp hneg ha

theorem namesNodup_deleteScalarField (pc : PointCloud) (index : Int)
    (h : NamesNodup pc) : NamesNodup (pc.deleteScalarField index) := by
  rcases deleteScalarField_fields pc index with he | ⟨i, hi, he⟩ | he
  · rw [NamesNodup, he]; exact h
  · unfold NamesNodup at h ⊢
    rw [he]
    have hlast : pc.m_scalarFields.length - 1 < pc.m_scalarFields.length := by
      omega
    have hperm := (listSwap_perm pc.m_scalarFields i
      (pc.m_scalarFields.length - 1) hi hlast).map (fun sf => sf.name)
    have hnd2 := hperm.symm.nodup h
    exact List.Nodup.sublist ((List.dropLast_sublist _).map _) hnd2
  · unfold NamesNodup at h ⊢
    rw [he]
    exact List.Nodup.sublist ((List.dropLast_sublist _).map _) h

theorem namesNodup_renameScalarField (pc : PointCloud) (index : Int) (nm : String)
    (h : NamesNodup pc) : NamesNodup (pc.renameScalarField index nm).1 := by
  unfold PointCloud.renameScalarField
  split
  · next hneg =>
    cases hg : pc.getScalarField index with
    | none => exact h
    | some sfv =>
      show ((updateFieldAt pc.m_scalarFields index.toNat
        (fun sf => sf.setName nm)).map (fun sf => sf.name)).Nodup
      unfold updateFieldAt
      rw [List.map_set]
      exact nodup_set_fresh _ _ _ h ((sfIndexByName_neg_iff _ nm 0).mp hneg)
  · exact h

theorem namesNodup_of_names_eq' {pc1 pc2 : PointCloud}
    (he : pc2.m_scalarFields.map (fun sf => sf.name)
      = pc1.m_scalarFields.map (fun sf => sf.name))
    (h : NamesNodup pc1) : NamesNodup pc2 := by
  unfold NamesNodup at h ⊢
  rw [he]; exact h

theorem namesNodup_enableScalarField (pc : PointCloud) (a r : Bool)
    (h : NamesNodup pc) : NamesNodup (pc.enableScalarField a r).1 := by
  unfold PointCloud.enableScalarField
  cases hin : pc.getCurrentInScalarField with
  | some sf => exact namesNodup_of_names_eq' (enableFinish_names pc r) h
  | none =>
    by_cases hd : 0 ≤ pc.getScalarFieldIndexByName "Default"
    · rw [if_pos hd]
      exact namesNodup_of_names_eq' (enableFinish_names _ r) h
    · rw [if_neg hd]
      by_cases hc : (pc.addScalarField "Default" a).2 < 0
      · rw [if_pos hc]
        exact namesNodup_addScalarField pc "Default" a h
      · rw [if_neg hc]
        exact namesNodup_of_names_eq' (enableFinish_names _ r)
          (namesNodup_addScalarField pc "Default" a h)

theorem namesNodup_step (pc : PointCloud) (op : CloudOp) (h : NamesNodup pc) :
    NamesNodup (pc.step op) := by
  cases op with
  | addPoint P => exact h
  | resize n a b => exact namesNodup_of_names_eq' (resize_fst_names pc n a b) h
  | reserve n a b =>
    show NamesNodup (pc.reserve n a b).1
    exact namesNodup_of_names_eq' (by rw [reserve_fst_fields]) h
  | addScalarField nm a => exact namesNodup_addScalarField pc nm a h
  | deleteScalarField i => exact namesNodup_deleteScalarField pc i h
  | deleteAllScalarFields => exact List.nodup_nil
  | renameScalarField i nm => exact namesNodup_renameScalarField pc i nm h
  | enableScalarField a r => exact namesNodup_enableScalarField pc a r h
  | swapPoints i j => exact namesNodup_of_names_eq' (swapPoints_fields_names pc i j) h
  | applyTransformation t =>
    show NamesNodup (pc.applyTransformation t)
    exact namesNodup_of_names_eq' (by rw [applyTransformation_fields]) h
  | getBoundingBox =>
    show NamesNodup pc.getBoundingBox.1
    exact namesNodup_of_names_eq' (by rw [getBoundingBox_fst_fields]) h
  | setPointScalarValue i v =>
    exact namesNodup_of_names_eq' (setPointScalarValue_names pc i v) h
  | forEach f => exact namesNodup_of_names_eq' (forEach_names pc f) h
  | placeIteratorAtBeginning => exact h
  | getNextPoint =>
    show NamesNodup pc.getNextPoint.1
    exact namesNodup_of_names_eq' (by rw [getNextPoint_fst_fields]) h
  | clear => exact List.nodup_nil

theorem namesNodup_foldl :
    ∀ (l : List CloudOp) (pc : PointCloud),
      NamesNodup pc → NamesNodup (l.foldl PointCloud.step pc) := by
  intro l
  induction l with
  | nil => intro pc h; exact h
  | cons op rest ih => intro pc h; exact ih _ (namesNodup_step pc op h)

theorem namesNodup_execOps (ops : List CloudOp) :
    NamesNodup (PointCloud.execOps ops) :=
  namesNodup_foldl ops PointCloud.empty List.nodup_nil

/-! ### Claim C7: addScalarField name uniqueness -/

/-- C7: addScalarField returns -1 and leaves the cloud unchanged when a
field with exactly that name exists; with a fresh name (and a successful
allocation) it returns the index of the appended field; the concrete
add-A-twice / delete / add-A-again scenario behaves as specified; and
field names stay pairwise distinct in every state reachable by a
sequence of operations. -/
theorem addScalarField_spec :
    (∀ (pc : PointCloud) (nm : String) (ok : Bool),
        0 ≤ pc.getScalarFieldIndexByName nm →
        pc.addScalarField nm ok = (pc, -1)) ∧
    (∀ (pc : PointCloud) (nm : String),
        pc.getScalarFieldIndexByName nm < 0 →
        (pc.addScalarField nm true).2 = (pc.m_scalarFields.length : Int) ∧
        0 ≤ (pc.addScalarField nm true).2 ∧
        (pc.addScalarField nm true).1.m_scalarFields
          = pc.m_scalarFields ++ [⟨nm, List.replicate pc.size 0, 0, 0⟩]) ∧
    ((PointCloud.empty.addScalarField "A" true).2 = 0 ∧
      ((PointCloud.empty.addScalarField "A" true).1.addScalarField "A" true)
        = ((PointCloud.empty.addScalarField "A" true).1, -1) ∧
      (((PointCloud.empty.addScalarField "A" true).1.deleteScalarField
          0).addScalarField "A" true).2 = 0) ∧
    (∀ ops : List CloudOp, NamesNodup (PointCloud.execOps ops)) := by
  refine ⟨fun pc nm ok h => ?_, fun pc nm h => ?_, by decide, namesNodup_execOps⟩
  · unfold PointCloud.addScalarField
    rw [if_pos h]
  · have haux : pc.addScalarField nm true
        = ({ pc with m_scalarFields :=
              pc.m_scalarFields ++ [⟨nm, List.replicate pc.size 0, 0, 0⟩] },
            (pc.m_scalarFields.length : Int)) := by
      unfold PointCloud.addScalarField
      rw [if_neg (by omega)]
      rw [if_neg (by simp)]
    rw [haux]
    exact ⟨rfl, by omega, rfl⟩

/-- Witness for the C7 theorem: a duplicate name is refused on a concrete
one-field cloud, and a fresh name gets index 0 on the empty cloud. -/
theorem addScalarField_spec_witness :
    pcOneFieldA.addScalarField "A" true = (pcOneFieldA, -1) ∧
    (PointCloud.empty.addScalarField "B" true).2 = 0 :=
  ⟨addScalarField_spec.1 pcOneFieldA "A" true (by decide),
   by
    have h2 := (addScalarField_spec.2.1 PointCloud.empty "B" (by decide)).1
    simpa using h2⟩

/-! ### Claim C6: scalar-field role indices -/

/-- A role index is unset (-1) or a valid index into a collection of the
given size. -/
def roleOk (role : Int) (sfCount : Nat) : Prop :=
  role = -1 ∨ (0 ≤ role ∧ role < (sfCount : Int))

/-- Both role indices of the cloud are unset or valid. -/
def RolesOk (pc : PointCloud) : Prop :=
  roleOk pc.m_currentInScalarFieldIndex pc.m_scalarFields.length ∧
  roleOk pc.m_currentOutScalarFieldIndex pc.m_scalarFields.length

theorem length_eq_of_names_eq {l1 l2 : List ScalarField}
    (h : l1.map (fun sf => sf.name) = l2.map (fun sf => sf.name)) :
    l1.length = l2.length := by
  have h2 := congrArg List.length h
  simpa using h2

theorem rolesOk_of_eq {pc1 pc2 : PointCloud}
    (hin : pc2.m_currentInScalarFieldIndex = pc1.m_currentInScalarFieldIndex)
    (hout : pc2.m_currentOutScalarFieldIndex = pc1.m_currentOutScalarFieldIndex)
    (hlen : pc1.m_scalarFields.length ≤ pc2.m_scalarFields.length)
    (h : RolesOk pc1) : RolesOk pc2 := by
  unfold RolesOk roleOk at *
  rw [hin, hout]
  omega

theorem resize_fst_roles (pc : PointCloud) (n : Nat) (a : Bool) (b : Nat → Bool) :
    ((pc.resize n a b).1).m_currentInScalarFieldIndex
        = pc.m_currentInScalarFieldIndex ∧
      ((pc.resize n a b).1).m_currentOutScalarFieldIndex
        = pc.m_currentOutScalarFieldIndex := by
  unfold PointCloud.resize
  split
  · exact ⟨rfl, rfl⟩
  · split <;> exact ⟨rfl, rfl⟩

theorem reserve_fst_roles (pc : PointCloud) (n : Nat) (a b : Bool) :
    ((pc.reserve n a b).1).m_currentInScalarFieldIndex
        = pc.m_currentInScalarFieldIndex ∧
      ((pc.reserve n a b).1).m_currentOutScalarFieldIndex
        = pc.m_currentOutScalarFieldIndex := by
  unfold PointCloud.reserve
  split <;> exact ⟨rfl, rfl⟩

theorem rename_fst_roles_len (pc : PointCloud) (index : Int) (nm : String) :
    ((pc.renameScalarField index nm).1).m_currentInScalarFieldIndex
        = pc.m_currentInScalarFieldIndex ∧
      ((pc.renameScalarField index nm).1).m_currentOutScalarFieldIndex
        = pc.m_currentOutScalarFieldIndex ∧
      ((pc.renameScalarField index nm).1).m_scalarFields.length
        = pc.m_scalarFields.length := by
  unfold PointCloud.renameScalarField
  split
  · cases pc.getScalarField index with
    | none => exact ⟨rfl, rfl, rfl⟩
    | some sfv =>
      refine ⟨rfl, rfl, ?_⟩
      show (updateFieldAt pc.m_scalarFields index.toNat
        (fun sf => sf.setName nm)).length = pc.m_scalarFields.length
      simp [updateFieldAt]
  · exact ⟨rfl, rfl, rfl⟩

theorem swapPoints_roles (pc : PointCloud) (i j : Nat) :
    (pc.swapPoints i j).m_currentInScalarFieldIndex
        = pc.m_currentInScalarFieldIndex ∧
      (pc.swapPoints i j).m_currentOutScalarFieldIndex
        = pc.m_currentOutScalarFieldIndex := by
  unfold PointCloud.swapPoints
  split <;> exact ⟨rfl, rfl⟩

theorem scalePhase_roles (pc : PointCloud) (t : Transformation) :
    (pc.scalePhase t).m_currentInScalarFieldIndex
        = pc.m_currentInScalarFieldIndex ∧
      (pc.scalePhase t).m_currentOutScalarFieldIndex
        = pc.m_currentOutScalarFieldIndex := by
  unfold PointCloud.scalePhase
  split <;> exact ⟨rfl, rfl⟩

theorem rotatePhase_roles (pc : PointCloud) (t : Transformation) :
    (pc.rotatePhase t).m_currentInScalarFieldIndex
        = pc.m_currentInScalarFieldIndex ∧
      (pc.rotatePhase t).m_currentOutScalarFieldIndex
        = pc.m_currentOutScalarFieldIndex := by
  unfold PointCloud.rotatePhase
  split <;> exact ⟨rfl, rfl⟩

theorem translatePhase_roles (pc : PointCloud) (t : Transformation) :
    (pc.translatePhase t).m_currentInScalarFieldIndex
        = pc.m_currentInScalarFieldIndex ∧
      (pc.translatePhase t).m_currentOutScalarFieldIndex
        = pc.m_currentOutScalarFieldIndex := by
  unfold PointCloud.translatePhase
  split <;> exact ⟨rfl, rfl⟩

theorem applyTransformation_roles (pc : PointCloud) (t : Transformation) :
    (pc.applyTransformation t).m_currentInScalarFieldIndex
        = pc.m_currentInScalarFieldIndex ∧
      (pc.applyTransformation t).m_currentOutScalarFieldIndex
        = pc.m_currentOutScalarFieldIndex := by
  unfold PointCloud.applyTransformation
  rw [(translatePhase_roles _ t).1, (rotatePhase_roles _ t).1,
    (scalePhase_roles _ t).1, (translatePhase_roles _ t).2,
    (rotatePhase_roles _ t).2, (scalePhase_roles _ t).2]
  exact ⟨rfl, rfl⟩

theorem getBoundingBox_fst_roles (pc : PointCloud) :
    (pc.getBoundingBox.1).m_currentInScalarFieldIndex
        = pc.m_currentInScalarFieldIndex ∧
      (pc.getBoundingBox.1).m_currentOutScalarFieldIndex
        = pc.m_currentOutScalarFieldIndex := by
  unfold PointCloud.getBoundingBox
  split <;> exact ⟨rfl, rfl⟩

theorem getNextPoint_fst_roles (pc : PointCloud) :
    (pc.getNextPoint.1).m_currentInScalarFieldIndex
        = pc.m_currentInScalarFieldIndex ∧
      (pc.getNextPoint.1).m_currentOutScalarFieldIndex
        = pc.m_currentOutScalarFieldIndex := by
  unfold PointCloud.getNextPoint
  split <;> exact ⟨rfl, rfl⟩

theorem setPointScalarValue_roles_len (pc : PointCloud) (i : Nat) (v : ℚ) :
    (pc.setPointScalarValue i v).m_currentInScalarFieldIndex
        = pc.m_currentInScalarFieldIndex ∧
      (pc.setPointScalarValue i v).m_currentOutScalarFieldIndex
        = pc.m_currentOutScalarFieldIndex ∧
      (pc.setPointScalarValue i v).m_scalarFields.length
        = pc.m_scalarFields.length := by
  unfold PointCloud.setPointScalarValue
  split
  · refine ⟨rfl, rfl, ?_⟩
    show (updateFieldAt pc.m_scalarFields pc.m_currentInScalarFieldIndex.toNat
      (fun sf => sf.setValue i v)).length = pc.m_scalarFields.length
    simp [updateFieldAt]
  · exact ⟨rfl, rfl, rfl⟩

theorem forEach_roles_len (pc : PointCloud) (action : CCVector3 → ℚ → ℚ) :
    (pc.forEach action).m_currentInScalarFieldIndex
        = pc.m_currentInScalarFieldIndex ∧
      (pc.forEach action).m_currentOutScalarFieldIndex
        = pc.m_currentOutScalarFieldIndex ∧
      (pc.forEach action).m_scalarFields.length
        = pc.m_scalarFields.length := by
  refine ⟨?_, ?_, length_eq_of_names_eq (forEach_names pc action)⟩ <;>
    (unfold PointCloud.forEach; cases pc.getCurrentOutScalarField <;> rfl)

theorem getScalarField_isSome_bounds {pc : PointCloud} {i : Int} {sf : ScalarField}
    (h : pc.getScalarField i = some sf) :
    0 ≤ i ∧ i < (pc.m_scalarFields.length : Int) := by
  unfold PointCloud.getScalarField at h
  split at h
  · next hb => exact hb
  · exact absurd h (by simp)

theorem enableResize_roles_len (pc : PointCloud) (r : Bool) :
    ((pc.enableResize r).1).m_currentInScalarFieldIndex
        = pc.m_currentInScalarFieldIndex ∧
      ((pc.enableResize r).1).m_currentOutScalarFieldIndex
        = pc.m_currentOutScalarFieldIndex ∧
      ((pc.enableResize r).1).m_scalarFields.length
        = pc.m_scalarFields.length := by
  refine ⟨?_, ?_, length_eq_of_names_eq (enableResize_names pc r)⟩ <;>
    (unfold PointCloud.enableResize;
     cases (pc.m_scalarFields.getD pc.m_currentInScalarFieldIndex.toNat
       default).resizeSafe r pc.m_pointsCapacity <;> rfl)

theorem rolesOk_enableFinish (pc : PointCloud) (r : Bool) (h : RolesOk pc) :
    RolesOk (pc.enableFinish r).1 := by
  unfold PointCloud.enableFinish
  split
  · have h2 : RolesOk { pc with m_currentOutScalarFieldIndex :=
        pc.m_currentInScalarFieldIndex } := ⟨h.1, h.1⟩
    have h3 := enableResize_roles_len { pc with m_currentOutScalarFieldIndex :=
        pc.m_currentInScalarFieldIndex } r
    exact rolesOk_of_eq h3.1 h3.2.1 (by omega) h2
  · have h3 := enableResize_roles_len pc r
    exact rolesOk_of_eq h3.1 h3.2.1 (by omega) h

theorem rolesOk_addScalarField (pc : PointCloud) (nm : String) (ok : Bool)
    (h : RolesOk pc) : RolesOk (pc.addScalarField nm ok).1 := by
  rcases addScalarField_cases pc nm ok with ⟨he, _⟩ | ⟨_, hf, _, hin, hout, _⟩
  · rw [he]; exact h
  · refine rolesOk_of_eq hin hout ?_ h
    rw [hf]
    simp

theorem addScalarField_snd (pc : PointCloud) (nm : String) (ok : Bool) :
    (pc.addScalarField nm ok).2 = -1 ∨
    ((pc.addScalarField nm ok).2 = (pc.m_scalarFields.length : Int) ∧
      (pc.addScalarField nm ok).1.m_scalarFields.length
        = pc.m_scalarFields.length + 1) := by
  rcases addScalarField_cases pc nm ok with ⟨_, he⟩ | ⟨_, hf, _, _, _, he⟩
  · left; exact he
  · right
    refine ⟨he, ?_⟩
    rw [hf]
    simp

theorem rolesOk_enableScalarField (pc : PointCloud) (a r : Bool)
    (h : RolesOk pc) : RolesOk (pc.enableScalarField a r).1 := by
  unfold PointCloud.enableScalarField
  cases hin : pc.getCurrentInScalarField with
  | some sf => exact rolesOk_enableFinish pc r h
  | none =>
    by_cases hd : 0 ≤ pc.getScalarFieldIndexByName "Default"
    · rw [if_pos hd]
      refine rolesOk_enableFinish _ r ⟨?_, h.2⟩
      have hlt := sfIndexByName_pos_lt pc.m_scalarFields "Default" 0 hd
      right
      unfold roleOk at *
      constructor
      · exact hd
      · have := hlt.2
        simpa using this
    · rw [if_neg hd]
      have hok := rolesOk_addScalarField pc "Default" a h
      by_cases hc : (pc.addScalarField "Default" a).2 < 0
      · rw [if_pos hc]
        refine ⟨?_, ?_⟩
        · show roleOk (pc.addScalarField "Default" a).2
            (pc.addScalarField "Default" a).1.m_scalarFields.length
          unfold roleOk
          rcases addScalarField_snd pc "Default" a with he | ⟨he, hlen⟩ <;> omega
        · show roleOk ((pc.addScalarField "Default" a).1).m_currentOutScalarFieldIndex
            (pc.addScalarField "Default" a).1.m_scalarFields.length
          exact hok.2
      · rw [if_neg hc]
        refine rolesOk_enableFinish _ r ⟨?_, ?_⟩
        · show roleOk (pc.addScalarField "Default" a).2
            (pc.addScalarField "Default" a).1.m_scalarFields.length
          unfold roleOk
          rcases addScalarField_snd pc "Default" a with he | ⟨he, hlen⟩ <;> omega
        · show roleOk ((pc.addScalarField "Default" a).1).m_currentOutScalarFieldIndex
            (pc.addScalarField "Default" a).1.m_scalarFields.length
          exact hok.2

theorem rolesOk_deleteScalarField (pc : PointCloud) (index : Int)
    (h : RolesOk pc) : RolesOk (pc.deleteScalarField index) := by
  unfold PointCloud.deleteScalarField
  split
  · exact h
  · next hrange =>
    push_neg at hrange
    rcases h with ⟨h1, h2⟩
    unfold roleOk at h1 h2
    split
    · next hlt =>
      unfold RolesOk roleOk roleAfterDelete
      simp only [List.length_dropLast, listSwap_length]
      constructor <;> (split_ifs <;> omega)
    · next hge =>
      unfold RolesOk roleOk
      simp only [List.length_dropLast]
      constructor <;> (split_ifs <;> omega)

theorem rolesOk_step (pc : PointCloud) (op : CloudOp) (h : RolesOk pc) :
    RolesOk (pc.step op) := by
  cases op with
  | addPoint P => exact rolesOk_of_eq rfl rfl (Nat.le_refl _) h
  | resize n a b =>
    show RolesOk (pc.resize n a b).1
    exact rolesOk_of_eq (resize_fst_roles pc n a b).1 (resize_fst_roles pc n a b).2
      (le_of_eq (length_eq_of_names_eq (resize_fst_names pc n a b)).symm) h
  | reserve n a b =>
    show RolesOk (pc.reserve n a b).1
    exact rolesOk_of_eq (reserve_fst_roles pc n a b).1 (reserve_fst_roles pc n a b).2
      (le_of_eq (congrArg List.length (reserve_fst_fields pc n a b)).symm) h
  | addScalarField nm a => exact rolesOk_addScalarField pc nm a h
  | deleteScalarField i => exact rolesOk_deleteScalarField pc i h
  | deleteAllScalarFields => exact ⟨Or.inl rfl, Or.inl rfl⟩
  | renameScalarField i nm =>
    show RolesOk (pc.renameScalarField i nm).1
    have h3 := rename_fst_roles_len pc i nm
    exact rolesOk_of_eq h3.1 h3.2.1 (le_of_eq h3.2.2.symm) h
  | enableScalarField a r => exact rolesOk_enableScalarField pc a r h
  | swapPoints i j =>
    show RolesOk (pc.swapPoints i j)
    exact rolesOk_of_eq (swapPoints_roles pc i j).1 (swapPoints_roles pc i j).2
      (le_of_eq (length_eq_of_names_eq (swapPoints_fields_names pc i j)).symm) h
  | applyTransformation t =>
    show RolesOk (pc.applyTransformation t)
    exact rolesOk_of_eq (applyTransformation_roles pc t).1
      (applyTransformation_roles pc t).2
      (le_of_eq (congrArg List.length (applyTransformation_fields pc t)).symm) h
  | getBoundingBox =>
    show RolesOk pc.getBoundingBox.1
    exact rolesOk_of_eq (getBoundingBox_fst_roles pc).1 (getBoundingBox_fst_roles pc).2
      (le_of_eq (congrArg List.length (getBoundingBox_fst_fields pc)).symm) h
  | setPointScalarValue i v =>
    show RolesOk (pc.setPointScalarValue i v)
    have h3 := setPointScalarValue_roles_len pc i v
    exact rolesOk_of_eq h3.1 h3.2.1 (le_of_eq h3.2.2.symm) h
  | forEach f =>
    show RolesOk (pc.forEach f)
    have h3 := forEach_roles_len pc f
    exact rolesOk_of_eq h3.1 h3.2.1 (le_of_eq h3.2.2.symm) h
  | placeIteratorAtBeginning => exact rolesOk_of_eq rfl rfl (Nat.le_refl _) h
  | getNextPoint =>
    show RolesOk pc.getNextPoint.1
    exact rolesOk_of_eq (getNextPoint_fst_roles pc).1 (getNextPoint_fst_roles pc).2
      (le_of_eq (congrArg List.length (getNextPoint_fst_fields pc)).symm) h
  | clear => exact ⟨Or.inl rfl, Or.inl rfl⟩

theorem rolesOk_foldl :
    ∀ (l : List CloudOp) (pc : PointCloud),
      RolesOk pc → RolesOk (l.foldl PointCloud.step pc) := by
  intro l
  induction l with
  | nil => intro pc h; exact h
  | cons op rest ih => intro pc h; exact ih _ (rolesOk_step pc op h)

/-- A two-field cloud whose input role aims at the last field and whose
output role aims at the first field. -/
def pcTwoFields : PointCloud :=
  ⟨[], 0, BoundingBox.cleared, [⟨"A", [], 0, 0⟩, ⟨"B", [], 0, 0⟩], 1, 0, 0⟩

/-- C6: in every state reachable by a sequence of operations, each role
index is -1 or a valid field index; deleteScalarField clears a role that
aims at the deleted index, remaps a role aiming at the old last index to
the deleted index when the compaction swap runs, and deleteAllScalarFields
unsets both roles. -/
theorem roleIndices_spec :
    (∀ ops : List CloudOp, RolesOk (PointCloud.execOps ops)) ∧
    (∀ (pc : PointCloud) (index : Int),
        0 ≤ index → index < (pc.m_scalarFields.length : Int) →
        ((index = pc.m_currentInScalarFieldIndex →
            (pc.deleteScalarField index).m_currentInScalarFieldIndex = -1) ∧
          (index = pc.m_currentOutScalarFieldIndex →
            (pc.deleteScalarField index).m_currentOutScalarFieldIndex = -1) ∧
          (index < (pc.m_scalarFields.length : Int) - 1 →
            pc.m_currentInScalarFieldIndex = (pc.m_scalarFields.length : Int) - 1 →
            (pc.deleteScalarField index).m_currentInScalarFieldIndex = index) ∧
          (index < (pc.m_scalarFields.length : Int) - 1 →
            pc.m_currentOutScalarFieldIndex = (pc.m_scalarFields.length : Int) - 1 →
            (pc.deleteScalarField index).m_currentOutScalarFieldIndex = index))) ∧
    (∀ pc : PointCloud,
        pc.deleteAllScalarFields.m_currentInScalarFieldIndex = -1 ∧
        pc.deleteAllScalarFields.m_currentOutScalarFieldIndex = -1) := by
  refine ⟨fun ops => rolesOk_foldl ops PointCloud.empty ⟨Or.inl rfl, Or.inl rfl⟩,
    fun pc index h0 hlen => ?_, fun pc => ⟨rfl, rfl⟩⟩
  have hrw : pc.deleteScalarField index =
      (if index < (pc.m_scalarFields.length : Int) - 1 then
        { pc with
            m_scalarFields := ((listSwap pc.m_scalarFields index.toNat
              (pc.m_scalarFields.length - 1)).dropLast),
            m_currentInScalarFieldIndex :=
              (roleAfterDelete index pc.m_scalarFields.length
                pc.m_currentInScalarFieldIndex),
            m_currentOutScalarFieldIndex :=
              (roleAfterDelete index pc.m_scalarFields.length
                pc.m_currentOutScalarFieldIndex) }
      else
        { pc with
            m_scalarFields := pc.m_scalarFields.dropLast,
            m_currentInScalarFieldIndex :=
              (if index = pc.m_currentInScalarFieldIndex then -1
                else pc.m_currentInScalarFieldIndex),
            m_currentOutScalarFieldIndex :=
              (if index = pc.m_currentOutScalarFieldIndex then -1
                else pc.m_currentOutScalarFieldIndex) }) := by
    unfold PointCloud.deleteScalarField
    rw [if_neg (by omega)]
  by_cases hsw : index < (pc.m_scalarFields.length : Int) - 1
  · rw [hrw, if_pos hsw]
    refine ⟨fun hin => ?_, fun hout => ?_, fun _ hin => ?_, fun _ hout => ?_⟩ <;>
      (show roleAfterDelete index pc.m_scalarFields.length _ = _;
       unfold roleAfterDelete;
       split_ifs <;> omega)
  · rw [hrw, if_neg hsw]
    refine ⟨fun hin => ?_, fun hout => ?_, fun hc _ => absurd hc hsw,
      fun hc _ => absurd hc hsw⟩ <;>
      (show (if index = _ then -1 else _) = -1; split_ifs <;> omega)

/-- Witness for the C6 theorem: deleting field 0 of a concrete two-field
cloud remaps the input role (which aimed at the last field) to 0 and
clears the output role (which aimed at the deleted field). -/
theorem roleIndices_spec_witness :
    (pcTwoFields.deleteScalarField 0).m_currentInScalarFieldIndex = 0 ∧
    (pcTwoFields.deleteScalarField 0).m_currentOutScalarFieldIndex = -1 :=
  ⟨(roleIndices_spec.2.1 pcTwoFields 0 (by decide) (by decide)).2.2.1
      (by decide) (by decide),
    (roleIndices_spec.2.1 pcTwoFields 0 (by decide) (by decide)).2.1 (by decide)⟩

/-! ### Claim C10: applyTransformation -/

/-- C10: applyTransformation is the scale phase, then the rotation phase,
then the translation phase, in that fixed order; each phase is skipped
exactly when its numeric guard fails (scale within tolerance of 1,
rotation matrix flagged invalid, translation of near-zero norm); each
phase that executes maps the stated componentwise update over all points
and invalidates the bounding-box cache; and when all three guards hold
every point P becomes R*(s*P) + T. -/
theorem applyTransformation_spec :
    (∀ (pc : PointCloud) (t : Transformation),
        pc.applyTransformation t
          = ((pc.scalePhase t).rotatePhase t).translatePhase t) ∧
    (∀ (pc : PointCloud) (t : Transformation),
        scaleCond t = false → pc.scalePhase t = pc) ∧
    (∀ (pc : PointCloud) (t : Transformation),
        scaleCond t = true →
          (pc.scalePhase t).m_points = pc.m_points.map (CCVector3.scl t.s) ∧
          (pc.scalePhase t).m_bbox.m_valid = false) ∧
    (∀ (pc : PointCloud) (t : Transformation),
        rotateCond t = false → pc.rotatePhase t = pc) ∧
    (∀ (pc : PointCloud) (t : Transformation),
        rotateCond t = true →
          (pc.rotatePhase t).m_points = pc.m_points.map t.R.mulV ∧
          (pc.rotatePhase t).m_bbox.m_valid = false) ∧
    (∀ (pc : PointCloud) (t : Transformation),
        translateCond t = false → pc.translatePhase t = pc) ∧
    (∀ (pc : PointCloud) (t : Transformation),
        translateCond t = true →
          (pc.translatePhase t).m_points
            = pc.m_points.map (fun P => P.addV t.T) ∧
          (pc.translatePhase t).m_bbox.m_valid = false) ∧
    (∀ (pc : PointCloud) (t : Transformation),
        scaleCond t = true → rotateCond t = true → translateCond t = true →
          (pc.applyTransformation t).m_points
            = pc.m_points.map (fun P => (t.R.mulV (CCVector3.scl t.s P)).addV t.T) ∧
          (pc.applyTransformation t).m_bbox.m_valid = false) := by
  refine ⟨fun pc t => rfl, fun pc t h => ?_, fun pc t h => ?_, fun pc t h => ?_,
    fun pc t h => ?_, fun pc t h => ?_, fun pc t h => ?_, fun pc t h1 h2 h3 => ?_⟩
  · simp [PointCloud.scalePhase, h]
  · simp [PointCloud.scalePhase, BoundingBox.setValidity, h]
  · simp [PointCloud.rotatePhase, h]
  · simp [PointCloud.rotatePhase, BoundingBox.setValidity, h]
  · simp [PointCloud.translatePhase, h]
  · simp [PointCloud.translatePhase, BoundingBox.setValidity, h]
  · unfold PointCloud.applyTransformation
    simp [PointCloud.scalePhase, PointCloud.rotatePhase, PointCloud.translatePhase,
      BoundingBox.setValidity, h1, h2, h3, List.map_map, Function.comp]

/-- A one-point cloud and a transformation with scale 2, identity (valid)
rotation, and translation (3, 0, 0), all three phase guards holding. -/
def pcW1 : PointCloud :=
  ⟨[⟨Flt.ofQ 1, Flt.ofQ 1, Flt.ofQ 1⟩], 1, BoundingBox.cleared, [], -1, -1, 0⟩

def tW : Transformation :=
  ⟨⟨true, 1, 0, 0, 0, 1, 0, 0, 0, 1⟩,
   ⟨Flt.ofQ 3, Flt.ofQ 0, Flt.ofQ 0⟩, Flt.ofQ 2⟩

/-- Witness for the C10 theorem: the concrete transformation maps the
point (1,1,1) to 1*(2*(1,1,1)) + (3,0,0) = (5,2,2) and leaves the cache
invalid. -/
theorem applyTransformation_spec_witness :
    (pcW1.applyTransformation tW).m_points
        = [⟨Flt.ofQ 5, Flt.ofQ 2, Flt.ofQ 2⟩] ∧
      (pcW1.applyTransformation tW).m_bbox.m_valid = false := by
  have hsc : scaleCond tW = true := by
    norm_num [scaleCond, Flt.sub, Flt.fabs, Flt.gtQ, Flt.ofQ, ZERO_TOLERANCE, tW]
  have htr : translateCond tW = true := by
    norm_num [translateCond, CCVector3.normSq, Flt.mul, Flt.add, Flt.gtQ,
      Flt.ofQ, ZERO_TOLERANCE, tW]
  have h := applyTransformation_spec.2.2.2.2.2.2.2 pcW1 tW hsc rfl htr
  refine ⟨?_, h.2⟩
  rw [h.1]
  norm_num [tW, pcW1, SquareMatrix.mulV, CCVector3.scl, CCVector3.addV,
    Flt.mul, Flt.add, qMulF, Flt.ofQ]

/-! ### Claim C5: bounding-box cache invalidation -/

theorem scalePhase_skip (pc : PointCloud) (t : Transformation)
    (h : scaleCond t = false) : pc.scalePhase t = pc := by
  simp [PointCloud.scalePhase, h]

theorem rotatePhase_skip (pc : PointCloud) (t : Transformation)
    (h : rotateCond t = false) : pc.rotatePhase t = pc := by
  simp [PointCloud.rotatePhase, h]

theorem translatePhase_skip (pc : PointCloud) (t : Transformation)
    (h : translateCond t = false) : pc.translatePhase t = pc := by
  simp [PointCloud.translatePhase, h]

theorem scalePhase_run_bbox (pc : PointCloud) (t : Transformation)
    (h : scaleCond t = true) : (pc.scalePhase t).m_bbox.m_valid = false := by
  simp [PointCloud.scalePhase, BoundingBox.setValidity, h]

theorem rotatePhase_run_bbox (pc : PointCloud) (t : Transformation)
    (h : rotateCond t = true) : (pc.rotatePhase t).m_bbox.m_valid = false := by
  simp [PointCloud.rotatePhase, BoundingBox.setValidity, h]

theorem translatePhase_run_bbox (pc : PointCloud) (t : Transformation)
    (h : translateCond t = true) : (pc.translatePhase t).m_bbox.m_valid = false := by
  simp [PointCloud.translatePhase, BoundingBox.setValidity, h]

theorem swapPoints_bbox (pc : PointCloud) (i j : Nat) :
    (pc.swapPoints i j).m_bbox = pc.m_bbox := by
  unfold PointCloud.swapPoints
  split <;> rfl

theorem resize_fst_bbox (pc : PointCloud) (n : Nat) (a : Bool) (b : Nat → Bool) :
    ((pc.resize n a b).1).m_bbox = pc.m_bbox := by
  unfold PointCloud.resize
  split
  · rfl
  · split <;> rfl

/-- C5 counterexample: the claim says every point-moving operation
(swapPoints explicitly included) leaves the cache invalid.  Starting from
the default cloud, add two points, read the bounding box (validating the
cache), then swap the two points: the cache is still valid afterwards,
because PointCloud::swapPoints never touches the bounding box. -/
theorem swapPoints_keeps_valid_cache_counterexample :
    ((((PointCloud.empty.addPoint CCVector3.zero).addPoint
          ⟨Flt.ofQ 1, Flt.ofQ 0, Flt.ofQ 0⟩).getBoundingBox.1).swapPoints
        0 1).m_bbox.m_valid = true := by
  rw [swapPoints_bbox]
  rfl

/-- C5 (amended): addPoint and every executed phase of
applyTransformation leave the bounding-box cache invalid, and
applyTransformation leaves it invalid whenever at least one phase
executes; swapPoints and resize, however, leave the cached box (validity
included) entirely untouched, so a swap after a bounding-box read keeps
the cache valid. -/
theorem cacheInvalidation_spec :
    (∀ (pc : PointCloud) (P : CCVector3),
        (pc.addPoint P).m_bbox.m_valid = false) ∧
    (∀ (pc : PointCloud) (t : Transformation),
        scaleCond t = true → (pc.scalePhase t).m_bbox.m_valid = false) ∧
    (∀ (pc : PointCloud) (t : Transformation),
        rotateCond t = true → (pc.rotatePhase t).m_bbox.m_valid = false) ∧
    (∀ (pc : PointCloud) (t : Transformation),
        translateCond t = true → (pc.translatePhase t).m_bbox.m_valid = false) ∧
    (∀ (pc : PointCloud) (t : Transformation),
        (scaleCond t = true ∨ rotateCond t = true ∨ translateCond t = true) →
        (pc.applyTransformation t).m_bbox.m_valid = false) ∧
    (∀ (pc : PointCloud) (i j : Nat),
        (pc.swapPoints i j).m_bbox = pc.m_bbox) ∧
    (∀ (pc : PointCloud) (n : Nat) (a : Bool) (b : Nat → Bool),
        ((pc.resize n a b).1).m_bbox = pc.m_bbox) := by
  refine ⟨fun pc P => rfl, scalePhase_run_bbox, rotatePhase_run_bbox,
    translatePhase_run_bbox, fun pc t h => ?_, swapPoints_bbox, resize_fst_bbox⟩
  unfold PointCloud.applyTransformation
  by_cases h3 : translateCond t = true
  · exact translatePhase_run_bbox _ t h3
  · rw [translatePhase_skip _ t (by revert h3; cases translateCond t <;> simp)]
    by_cases h2 : rotateCond t = true
    · exact rotatePhase_run_bbox _ t h2
    · rw [rotatePhase_skip _ t (by revert h2; cases rotateCond t <;> simp)]
      rcases h with h1 | h2' | h3'
      · exact scalePhase_run_bbox pc t h1
      · exact absurd h2' h2
      · exact absurd h3' h3

/-- Witness for the C5 amended theorem at a concrete transformation whose
scale guard holds. -/
theorem cacheInvalidation_spec_witness :
    (pcW1.scalePhase tW).m_bbox.m_valid = false ∧
    (pcW1.applyTransformation tW).m_bbox.m_valid = false :=
  ⟨cacheInvalidation_spec.2.1 pcW1 tW
      (by norm_num [scaleCond, Flt.sub, Flt.fabs, Flt.gtQ, Flt.ofQ,
        ZERO_TOLERANCE, tW]),
    cacheInvalidation_spec.2.2.2.2.1 pcW1 tW
      (Or.inl (by norm_num [scaleCond, Flt.sub, Flt.fabs, Flt.gtQ, Flt.ofQ,
        ZERO_TOLERANCE, tW]))⟩

/-! ### Claim C4: getBoundingBox -/

/-- The cached box, when flagged valid, is exactly the recomputed box of
the current points. -/
def BBoxCoherent (pc : PointCloud) : Prop :=
  pc.m_bbox.m_valid = true → pc.m_bbox = computeBox pc.m_points

theorem computeBox_valid (l : List CCVector3) : (computeBox l).m_valid = true := rfl

theorem getBoundingBox_corners (pc : PointCloud) (h : BBoxCoherent pc) :
    pc.getBoundingBox.2
      = ((computeBox pc.m_points).m_bbMin, (computeBox pc.m_points).m_bbMax) := by
  unfold PointCloud.getBoundingBox
  cases hv : pc.m_bbox.m_valid
  · simp [hv]
  · rw [h hv]
    simp

theorem bboxCoherent_addPoint (pc : PointCloud) (P : CCVector3) :
    BBoxCoherent (pc.addPoint P) := by
  intro hv
  simp [PointCloud.addPoint, BoundingBox.setValidity] at hv

theorem bboxCoherent_swapPoints (pc : PointCloud) (i j : Nat)
    (h : BBoxCoherent pc) : BBoxCoherent (pc.swapPoints i j) := by
  unfold PointCloud.swapPoints
  split
  · exact h
  · next hg =>
    push_neg at hg
    intro hv
    have h2 := h hv
    show pc.m_bbox = computeBox (listSwap pc.m_points i j)
    rw [computeBox_listSwap _ i j hg.2.1 hg.2.2]
    exact h2

theorem bboxCoherent_scalePhase (pc : PointCloud) (t : Transformation)
    (h : BBoxCoherent pc) : BBoxCoherent (pc.scalePhase t) := by
  unfold PointCloud.scalePhase
  split
  · intro hv
    simp [BoundingBox.setValidity] at hv
  · exact h

theorem bboxCoherent_rotatePhase (pc : PointCloud) (t : Transformation)
    (h : BBoxCoherent pc) : BBoxCoherent (pc.rotatePhase t) := by
  unfold PointCloud.rotatePhase
  split
  · intro hv
    simp [BoundingBox.setValidity] at hv
  · exact h

theorem bboxCoherent_translatePhase (pc : PointCloud) (t : Transformation)
    (h : BBoxCoherent pc) : BBoxCoherent (pc.translatePhase t) := by
  unfold PointCloud.translatePhase
  split
  · intro hv
    simp [BoundingBox.setValidity] at hv
  · exact h

theorem bboxCoherent_applyTransformation (pc : PointCloud) (t : Transformation)
    (h : BBoxCoherent pc) : BBoxCoherent (pc.applyTransformation t) :=
  bboxCoherent_translatePhase _ t
    (bboxCoherent_rotatePhase _ t (bboxCoherent_scalePhase pc t h))

theorem bboxCoherent_getBoundingBox (pc : PointCloud) (h : BBoxCoherent pc) :
    BBoxCoherent pc.getBoundingBox.1 := by
  unfold PointCloud.getBoundingBox
  cases hv : pc.m_bbox.m_valid
  · simp only [hv]
    intro _
    rfl
  · simp only [hv]
    exact h

/-- The stale-cache scenario: one point (5,5,5), a bounding-box read that
validates the cache, a resize to two points (appending the origin without
invalidating the box), then a swap of the two points. -/
def pcStale : PointCloud :=
  ((((PointCloud.empty.addPoint
      ⟨Flt.ofQ 5, Flt.ofQ 5, Flt.ofQ 5⟩).getBoundingBox.1).resize 2 true
        (fun _ => true)).1).swapPoints 0 1

/-- C4 counterexample: the claim says that after any swapPoints call the
next getBoundingBox reflects the updated point set exactly, for every
cloud state.  In the reachable state pcStale the call returns the old
one-point box (min corner (5,5,5)) although the exact box of the current
two points has min corner (0,0,0): resize added a point while leaving the
cache valid, and swapPoints kept it valid. -/
theorem getBoundingBox_stale_counterexample :
    (pcStale.getBoundingBox.2).1 ≠ (computeBox pcStale.m_points).m_bbMin := by
  decide

/-- C4 (amended): getBoundingBox recomputes the box by folding every
point into the min/max accumulator and marks the cache valid whenever the
cache was invalid; two consecutive calls return identical corners; and
after addPoint, swapPoints or applyTransformation the next call returns
exactly the recomputed corners of the updated point set, provided the
cached box, when valid, matched the points before the call (this
coherence holds after addPoint unconditionally and is preserved by
swapPoints, the transformation phases and getBoundingBox itself, but can
be destroyed by a growing resize, which leaves a valid cache while adding
points). -/
theorem getBoundingBox_spec :
    (∀ pc : PointCloud, pc.m_bbox.m_valid = false →
        pc.getBoundingBox
          = ({ pc with m_bbox := computeBox pc.m_points },
              (computeBox pc.m_points).m_bbMin,
              (computeBox pc.m_points).m_bbMax) ∧
        (computeBox pc.m_points).m_valid = true) ∧
    (∀ pc : PointCloud,
        (pc.getBoundingBox.1).getBoundingBox.2 = pc.getBoundingBox.2) ∧
    (∀ (pc : PointCloud) (P : CCVector3),
        (pc.addPoint P).getBoundingBox.2
          = ((computeBox (pc.addPoint P).m_points).m_bbMin,
              (computeBox (pc.addPoint P).m_points).m_bbMax)) ∧
    (∀ (pc : PointCloud) (i j : Nat), BBoxCoherent pc →
        (pc.swapPoints i j).getBoundingBox.2
          = ((computeBox (pc.swapPoints i j).m_points).m_bbMin,
              (computeBox (pc.swapPoints i j).m_points).m_bbMax)) ∧
    (∀ (pc : PointCloud) (t : Transformation), BBoxCoherent pc →
        (pc.applyTransformation t).getBoundingBox.2
          = ((computeBox (pc.applyTransformation t).m_points).m_bbMin,
              (computeBox (pc.applyTransformation t).m_points).m_bbMax)) ∧
    (∀ (pc : PointCloud) (P : CCVector3), BBoxCoherent (pc.addPoint P)) ∧
    (∀ (pc : PointCloud) (i j : Nat), BBoxCoherent pc →
        BBoxCoherent (pc.swapPoints i j)) ∧
    (∀ (pc : PointCloud) (t : Transformation), BBoxCoherent pc →
        BBoxCoherent (pc.applyTransformation t)) ∧
    (∀ pc : PointCloud, BBoxCoherent pc → BBoxCoherent pc.getBoundingBox.1) := by
  refine ⟨fun pc h => ?_, fun pc => ?_,
    fun pc P => getBoundingBox_corners _ (bboxCoherent_addPoint pc P),
    fun pc i j h => getBoundingBox_corners _ (bboxCoherent_swapPoints pc i j h),
    fun pc t h => getBoundingBox_corners _ (bboxCoherent_applyTransformation pc t h),
    bboxCoherent_addPoint, bboxCoherent_swapPoints,
    bboxCoherent_applyTransformation, bboxCoherent_getBoundingBox⟩
  · constructor
    · unfold PointCloud.getBoundingBox
      rw [if_neg (by simp [h])]
    · rfl
  · cases hv : pc.m_bbox.m_valid
    · simp [PointCloud.getBoundingBox, hv, computeBox_valid]
    · simp [PointCloud.getBoundingBox, hv]

/-- A concrete coherent cloud: one added point with the box read once. -/
def pcBW : PointCloud :=
  (PointCloud.empty.addPoint CCVector3.zero).getBoundingBox.1

/-- Witness for the C4 amended theorem: on the concrete coherent cloud
pcBW, the corners returned after a swapPoints call are exactly the
recomputed corners. -/
theorem getBoundingBox_spec_witness :
    (pcBW.swapPoints 0 0).getBoundingBox.2
      = ((computeBox (pcBW.swapPoints 0 0).m_points).m_bbMin,
          (computeBox (pcBW.swapPoints 0 0).m_points).m_bbMax) :=
  getBoundingBox_spec.2.2.2.1 pcBW 0 0 (fun _ => rfl)

/-! ### Claim C8: enableScalarField -/

theorem listResize_length {α : Type} (l : List α) (n : Nat) (pad : α) :
    (listResize l n pad).length = n := by
  simp [listResize]
  omega

theorem enableResize_snd_iff (pc : PointCloud) (r : Bool) :
    ((pc.enableResize r).2 = true ↔
      (pc.m_scalarFields.getD pc.m_currentInScalarFieldIndex.toNat
        default).resizeSafe r pc.m_pointsCapacity ≠ none) := by
  unfold PointCloud.enableResize
  cases hr : (pc.m_scalarFields.getD pc.m_currentInScalarFieldIndex.toNat
      default).resizeSafe r pc.m_pointsCapacity with
  | none => simp
  | some sf1 => simp

theorem enableResize_success_len (pc : PointCloud) (r : Bool)
    (h0 : 0 ≤ pc.m_currentInScalarFieldIndex)
    (hlt : pc.m_currentInScalarFieldIndex < (pc.m_scalarFields.length : Int))
    (hs : (pc.enableResize r).2 = true) :
    (((pc.enableResize r).1).m_scalarFields.getD
        pc.m_currentInScalarFieldIndex.toNat default).values.length
      = pc.m_pointsCapacity := by
  cases hr : (pc.m_scalarFields.getD pc.m_currentInScalarFieldIndex.toNat
      default).resizeSafe r pc.m_pointsCapacity with
  | none =>
    have he : pc.enableResize r = (pc, false) := by
      unfold PointCloud.enableResize
      rw [hr]
    rw [he] at hs
    simp at hs
  | some sf1 =>
    have he : pc.enableResize r
        = ({ pc with m_scalarFields :=
            pc.m_scalarFields.set pc.m_currentInScalarFieldIndex.toNat sf1 },
          true) := by
      unfold PointCloud.enableResize
      rw [hr]
    rw [he]
    show (((pc.m_scalarFields.set pc.m_currentInScalarFieldIndex.toNat
        sf1)).getD pc.m_currentInScalarFieldIndex.toNat default).values.length
      = pc.m_pointsCapacity
    rw [getD_set_self _ _ _ (by omega)]
    rw [ScalarField.resizeSafe_some hr]
    show (listResize (pc.m_scalarFields.getD
        pc.m_currentInScalarFieldIndex.toNat default).values
      pc.m_pointsCapacity 0).length = pc.m_pointsCapacity
    exact listResize_length _ _ _

/-- C8: enableScalarField keeps an already-designated input field; when
the input role is unset it designates an existing field named Default, or
creates one (returning false when that creation fails); when the output
role is unset it designates the resolved input field as output too; and
it finally resizes the resolved input field, via the safe primitive, to
the point capacity (not the point count), returning true exactly when
that safe resize succeeds. -/
theorem enableScalarField_spec :
    (∀ (pc : PointCloud) (a r : Bool) (sf : ScalarField),
        pc.getCurrentInScalarField = some sf →
        pc.enableScalarField a r = pc.enableFinish r) ∧
    (∀ (pc : PointCloud) (a r : Bool),
        pc.getCurrentInScalarField = none →
        0 ≤ pc.getScalarFieldIndexByName "Default" →
        pc.enableScalarField a r
          = ({ pc with m_currentInScalarFieldIndex :=
                pc.getScalarFieldIndexByName "Default" }).enableFinish r) ∧
    (∀ (pc : PointCloud) (a r : Bool),
        pc.getCurrentInScalarField = none →
        pc.getScalarFieldIndexByName "Default" < 0 →
        ¬ (pc.addScalarField "Default" a).2 < 0 →
        (pc.addScalarField "Default" a).1.m_scalarFields
            = pc.m_scalarFields ++ [⟨"Default", List.replicate pc.size 0, 0, 0⟩] ∧
        pc.enableScalarField a r
          = ({ (pc.addScalarField "Default" a).1 with
                m_currentInScalarFieldIndex :=
                  (pc.addScalarField "Default" a).2 }).enableFinish r) ∧
    (∀ (pc : PointCloud) (a r : Bool),
        pc.getCurrentInScalarField = none →
        pc.getScalarFieldIndexByName "Default" < 0 →
        (pc.addScalarField "Default" a).2 < 0 →
        (pc.enableScalarField a r).2 = false) ∧
    (∀ (pc : PointCloud) (r : Bool),
        (pc.getCurrentOutScalarField = none →
          ((pc.enableFinish r).1).m_currentOutScalarFieldIndex
            = pc.m_currentInScalarFieldIndex) ∧
        (pc.getCurrentOutScalarField ≠ none →
          ((pc.enableFinish r).1).m_currentOutScalarFieldIndex
            = pc.m_currentOutScalarFieldIndex) ∧
        ((pc.enableFinish r).1).m_currentInScalarFieldIndex
          = pc.m_currentInScalarFieldIndex) ∧
    (∀ (pc : PointCloud) (r : Bool),
        ((pc.enableFinish r).2 = true ↔
          (pc.m_scalarFields.getD pc.m_currentInScalarFieldIndex.toNat
            default).resizeSafe r pc.m_pointsCapacity ≠ none) ∧
        (0 ≤ pc.m_currentInScalarFieldIndex →
          pc.m_currentInScalarFieldIndex < (pc.m_scalarFields.length : Int) →
          (pc.enableFinish r).2 = true →
          (((pc.enableFinish r).1).m_scalarFields.getD
              pc.m_currentInScalarFieldIndex.toNat default).values.length
            = pc.m_pointsCapacity)) := by
  refine ⟨fun pc a r sf h => ?_, fun pc a r h hd => ?_, fun pc a r h hd hc => ?_,
    fun pc a r h hd hc => ?_, fun pc r => ?_, fun pc r => ?_⟩
  · unfold PointCloud.enableScalarField
    rw [h]
  · unfold PointCloud.enableScalarField
    rw [h, if_pos hd]
  · constructor
    · rcases addScalarField_cases pc "Default" a with ⟨_, he⟩ | ⟨_, hf, _⟩
      · omega
      · exact hf
    · unfold PointCloud.enableScalarField
      rw [h, if_neg (by omega), if_neg hc]
  · unfold PointCloud.enableScalarField
    rw [h, if_neg (by omega), if_pos hc]
  · by_cases hout : pc.getCurrentOutScalarField = none
    · refine ⟨fun _ => ?_, fun hn => absurd hout hn, ?_⟩
      · unfold PointCloud.enableFinish
        rw [if_pos hout]
        exact (enableResize_roles_len _ r).2.1
      · unfold PointCloud.enableFinish
        rw [if_pos hout]
        exact (enableResize_roles_len _ r).1
    · refine ⟨fun hn => absurd hn hout, fun _ => ?_, ?_⟩
      · unfold PointCloud.enableFinish
        rw [if_neg hout]
        exact (enableResize_roles_len _ r).2.1
      · unfold PointCloud.enableFinish
        rw [if_neg hout]
        exact (enableResize_roles_len _ r).1
  · unfold PointCloud.enableFinish
    by_cases hout : pc.getCurrentOutScalarField = none
    · rw [if_pos hout]
      exact ⟨enableResize_snd_iff _ r,
        fun h0 hlt hs => enableResize_success_len _ r h0 hlt hs⟩
    · rw [if_neg hout]
      exact ⟨enableResize_snd_iff _ r,
        fun h0 hlt hs => enableResize_success_len _ r h0 hlt hs⟩

/-- Witness for the C8 theorem: on the empty cloud a failing creation of
the Default field makes the call report false, and on a concrete
two-field cloud the final safe resize brings the resolved input field to
the point capacity. -/
theorem enableScalarField_spec_witness :
    (PointCloud.empty.enableScalarField false true).2 = false ∧
    ((pcTwoFields.enableFinish true).1.m_scalarFields.getD 1
        default).values.length = pcTwoFields.m_pointsCapacity :=
  ⟨enableScalarField_spec.2.2.2.1 PointCloud.empty false true (by decide)
      (by decide) (by decide),
    (enableScalarField_spec.2.2.2.2.2 pcTwoFields true).2 (by decide) (by decide)
      (by decide)⟩

/-! ### Claim C1: resize atomicity -/

/-- The recomputed minimum statistic of a value list. -/
def statMin (l : List ℚ) : ℚ :=
  match l with
  | [] => 0
  | v :: vs => vs.foldl min v

/-- The recomputed maximum statistic of a value list. -/
def statMax (l : List ℚ) : ℚ :=
  match l with
  | [] => 0
  | v :: vs => vs.foldl max v

theorem computeMinAndMax_explicit (sf : ScalarField) :
    sf.computeMinAndMax
      = ⟨sf.name, sf.values, statMin sf.values, statMax sf.values⟩ := by
  unfold ScalarField.computeMinAndMax statMin statMax
  cases h : sf.values <;> rfl

theorem computeMinAndMax_congr {a b : ScalarField} (hn : a.name = b.name)
    (hv : a.values = b.values) : a.computeMinAndMax = b.computeMinAndMax := by
  rw [computeMinAndMax_explicit, computeMinAndMax_explicit, hn, hv]

theorem listResize_restore {α : Type} (l : List α) (n : Nat) (pad : α)
    (h : l.length ≤ n) : listResize (listResize l n pad) l.length pad = l := by
  show (listResize l n pad).take l.length ++
      List.replicate (l.length - (listResize l n pad).length) pad = l
  rw [listResize_length]
  have h0 : l.length - n = 0 := by omega
  rw [h0, List.replicate_zero, List.append_nil]
  show (l.take n ++ List.replicate (n - l.length) pad).take l.length = l
  rw [List.take_of_length_le h]
  exact List.take_left' rfl

theorem resizeSFList_fail_oc_lt (nc oc : Nat) (ok : Nat → Bool) :
    ∀ (i : Nat) (fields : List ScalarField),
      (∀ sf ∈ fields, sf.values.length = oc) →
      (resizeSFList nc oc ok i fields).2 = false → oc < nc := by
  intro i fields
  induction fields generalizing i with
  | nil => intro _ hf; simp [resizeSFList] at hf
  | cons sf rest ih =>
    intro hlen hf
    unfold resizeSFList at hf
    cases hr : sf.resizeSafe (ok i) nc with
    | none =>
      unfold ScalarField.resizeSafe at hr
      split at hr
      · exact absurd hr (by simp)
      · next hnle =>
        have := hlen sf (List.mem_cons_self sf rest)
        omega
    | some sf1 =>
      rw [hr] at hf
      cases hrec : resizeSFList nc oc ok (i + 1) rest with
      | mk rest1 b =>
        rw [hrec] at hf
        cases b with
        | true => simp at hf
        | false =>
          exact ih (i + 1) (fun sf2 hm => hlen sf2 (List.mem_cons_of_mem sf hm))
            (by rw [hrec])

theorem resizeSFList_fail_restore (nc oc : Nat) (ok : Nat → Bool) :
    ∀ (i : Nat) (fields : List ScalarField),
      (∀ sf ∈ fields, sf.values.length = oc) →
      (∀ sf ∈ fields, sf.computeMinAndMax = sf) →
      (resizeSFList nc oc ok i fields).2 = false →
      (resizeSFList nc oc ok i fields).1 = fields := by
  intro i fields
  induction fields generalizing i with
  | nil => intro _ _ hf; simp [resizeSFList] at hf
  | cons sf rest ih =>
    intro hlen hfresh hf
    have hoc : oc < nc := resizeSFList_fail_oc_lt nc oc ok i (sf :: rest) hlen hf
    unfold resizeSFList at hf ⊢
    cases hr : sf.resizeSafe (ok i) nc with
    | none => rfl
    | some sf1 =>
      rw [hr] at hf
      cases hrec : resizeSFList nc oc ok (i + 1) rest with
      | mk rest1 b =>
        rw [hrec] at hf
        cases b with
        | true => simp at hf
        | false =>
          simp only []
          have hrest : rest1 = rest := by
            have := ih (i + 1)
              (fun sf2 hm => hlen sf2 (List.mem_cons_of_mem sf hm))
              (fun sf2 hm => hfresh sf2 (List.mem_cons_of_mem sf hm))
              (by rw [hrec])
            rw [hrec] at this
            exact this
          rw [hrest]
          have hsf1 : sf1 = sf.resize nc := ScalarField.resizeSafe_some hr
          have hslen : sf.values.length = oc := hlen sf (List.mem_cons_self sf rest)
          have hvals : ((sf1.computeMinAndMax).resize oc).values = sf.values := by
            rw [ScalarField.resize, ScalarField.computeMinAndMax_values, hsf1]
            show listResize (listResize sf.values nc 0) oc 0 = sf.values
            rw [← hslen]
            exact listResize_restore sf.values nc 0 (by omega)
          have hname : ((sf1.computeMinAndMax).resize oc).name = sf.name := by
            rw [ScalarField.resize, ScalarField.computeMinAndMax_name, hsf1]
            rfl
          show (sf1.computeMinAndMax).rollbackTo oc :: rest = sf :: rest
          unfold ScalarField.rollbackTo
          rw [computeMinAndMax_congr hname hvals,
            hfresh sf (List.mem_cons_self sf rest)]

theorem resizeSFList_succ_lengths (nc oc : Nat) (ok : Nat → Bool) :
    ∀ (i : Nat) (fields : List ScalarField),
      (resizeSFList nc oc ok i fields).2 = true →
      ∀ sf1 ∈ (resizeSFList nc oc ok i fields).1, sf1.values.length = nc := by
  intro i fields
  induction fields generalizing i with
  | nil => intro _ sf1 hm; simp [resizeSFList] at hm
  | cons sf rest ih =>
    intro hs sf1 hm
    unfold resizeSFList at hs hm
    cases hr : sf.resizeSafe (ok i) nc with
    | none =>
      rw [hr] at hs
      simp at hs
    | some sfr =>
      rw [hr] at hs hm
      cases hrec : resizeSFList nc oc ok (i + 1) rest with
      | mk rest1 b =>
        rw [hrec] at hs hm
        cases b with
        | false => simp at hs
        | true =>
          simp only [List.mem_cons] at hm
          rcases hm with hm | hm
          · rw [hm, ScalarField.computeMinAndMax_values,
              ScalarField.resizeSafe_some hr]
            exact listResize_length _ _ _
          · have := ih (i + 1) (by rw [hrec]) sf1 (by rw [hrec]; exact hm)
            exact this

/-- A cloud with one point whose first scalar field was pre-sized to
three values (longer than the point count) and whose second field is
aligned; statistics are up to date. -/
def pcC1 : PointCloud :=
  ⟨[CCVector3.zero], 1, BoundingBox.cleared,
    [⟨"L", [1, 2, 3], 1, 3⟩, ⟨"S", [0], 0, 0⟩], -1, -1, 0⟩

/-- C1 counterexample: the claim promises, for every cloud state, that a
failed resize leaves all field lengths identical to their pre-call
values.  On pcC1, growing to 5 with an injected allocation failure on
field 1 makes the rollback clamp field 0 (pre-sized to 3 values) to the
old point count 1, so its length is not restored, although the call does
return false. -/
theorem resize_rollback_counterexample :
    (pcC1.resize 5 true (fun i => decide (i = 0))).2 = false ∧
    (pcC1.resize 5 true (fun i => decide (i = 0))).1.m_scalarFields.map
        (fun sf => sf.values.length)
      ≠ pcC1.m_scalarFields.map (fun sf => sf.values.length) := by
  decide

/-- C1 (amended): resize is atomic on clouds whose scalar fields are all
exactly point-count long with up-to-date min/max statistics: a
point-allocation failure returns false with the cloud unchanged; a field
failure rolls every grown field back (recomputing its statistics, which
restores them) and restores the point sequence, returning false with the
points and all fields - lengths, contents and statistics - equal to
their pre-call values; success leaves the point sequence and every field
at exactly newCount elements.  A field pre-sized longer than the point
count is clamped to the old point count by the rollback instead of being
restored. -/
theorem resize_spec :
    (∀ (pc : PointCloud) (n : Nat) (sfOk : Nat → Bool),
        pc.m_pointsCapacity < n →
        pc.resize n false sfOk = (pc, false)) ∧
    (∀ (pc : PointCloud) (n : Nat) (ptsOk : Bool) (sfOk : Nat → Bool),
        (pc.resize n ptsOk sfOk).2 = true →
        (pc.resize n ptsOk sfOk).1.size = n ∧
        ∀ sf ∈ (pc.resize n ptsOk sfOk).1.m_scalarFields,
          sf.values.length = n) ∧
    (∀ (pc : PointCloud) (n : Nat) (ptsOk : Bool) (sfOk : Nat → Bool),
        (∀ sf ∈ pc.m_scalarFields, sf.values.length = pc.m_points.length) →
        (∀ sf ∈ pc.m_scalarFields, sf.computeMinAndMax = sf) →
        (pc.resize n ptsOk sfOk).2 = false →
        (pc.resize n ptsOk sfOk).1.m_points = pc.m_points ∧
        (pc.resize n ptsOk sfOk).1.m_scalarFields = pc.m_scalarFields) := by
  refine ⟨fun pc n sfOk h => ?_, fun pc n ptsOk sfOk hs => ?_,
    fun pc n ptsOk sfOk haligned hfresh hf => ?_⟩
  · unfold PointCloud.resize
    rw [if_pos (by simp [h])]
  · by_cases hfail : (!ptsOk && decide (pc.m_pointsCapacity < n)) = true
    · have he : pc.resize n ptsOk sfOk = (pc, false) := by
        unfold PointCloud.resize
        rw [if_pos hfail]
      rw [he] at hs
      simp at hs
    · cases hrec : resizeSFList n pc.m_points.length sfOk 0 pc.m_scalarFields with
      | mk sfs b =>
        cases b with
        | false =>
          have he : (pc.resize n ptsOk sfOk).2 = false := by
            unfold PointCloud.resize
            rw [if_neg hfail, hrec]
          rw [he] at hs
          simp at hs
        | true =>
          have he : pc.resize n ptsOk sfOk
              = ({ pc with
                    m_points := listResize pc.m_points n CCVector3.zero,
                    m_pointsCapacity := max pc.m_pointsCapacity n,
                    m_scalarFields := sfs }, true) := by
            unfold PointCloud.resize
            rw [if_neg hfail, hrec]
          rw [he]
          constructor
          · exact listResize_length _ _ _
          · intro sf hm
            have h2 := resizeSFList_succ_lengths n pc.m_points.length sfOk 0
              pc.m_scalarFields (by rw [hrec])
            rw [hrec] at h2
            exact h2 sf hm
  · by_cases hfail : (!ptsOk && decide (pc.m_pointsCapacity < n)) = true
    · have he : pc.resize n ptsOk sfOk = (pc, false) := by
        unfold PointCloud.resize
        rw [if_pos hfail]
      rw [he]
      exact ⟨rfl, rfl⟩
    · cases hrec : resizeSFList n pc.m_points.length sfOk 0 pc.m_scalarFields with
      | mk sfs b =>
        cases b with
        | true =>
          have he : (pc.resize n ptsOk sfOk).2 = true := by
            unfold PointCloud.resize
            rw [if_neg hfail, hrec]
          rw [he] at hf
          simp at hf
        | false =>
          have he : pc.resize n ptsOk sfOk
              = ({ pc with
                    m_points :=
                      (listResize (listResize pc.m_points n CCVector3.zero)
                        pc.m_points.length CCVector3.zero),
                    m_pointsCapacity := max pc.m_pointsCapacity n,
                    m_scalarFields := sfs }, false) := by
            unfold PointCloud.resize
            rw [if_neg hfail, hrec]
          have hoc : pc.m_points.length < n := by
            have h2 := resizeSFList_fail_oc_lt n pc.m_points.length sfOk 0
              pc.m_scalarFields haligned
            rw [hrec] at h2
            exact h2 rfl
          have hsfs : sfs = pc.m_scalarFields := by
            have h2 := resizeSFList_fail_restore n pc.m_points.length sfOk 0
              pc.m_scalarFields haligned hfresh
            rw [hrec] at h2
            exact h2 rfl
          rw [he]
          exact ⟨listResize_restore pc.m_points n CCVector3.zero (by omega), hsfs⟩

/-- An aligned one-point cloud with two one-value fields, statistics up
to date. -/
def pcC1W : PointCloud :=
  ⟨[CCVector3.zero], 1, BoundingBox.cleared,
    [⟨"A", [4], 4, 4⟩, ⟨"B", [7], 7, 7⟩], -1, -1, 0⟩

/-- Witness for the C1 amended theorem: on the aligned cloud pcC1W, a
resize to 3 with an injected failure on field 1 restores the points and
both fields exactly. -/
theorem resize_spec_witness :
    (pcC1W.resize 3 true (fun i => decide (i = 0))).1.m_points
        = pcC1W.m_points ∧
      (pcC1W.resize 3 true (fun i => decide (i = 0))).1.m_scalarFields
        = pcC1W.m_scalarFields :=
  resize_spec.2.2 pcC1W 3 true (fun i => decide (i = 0)) (by decide) (by decide)
    (by decide)
